import Mathlib

/-
Verification development for the whitespace-insensitive fuzzy text locator
and the structure-aware editing operations of `file_tools_mcp.ts`.

The embedding works at the level fixed by the data model of the program:
file content is an ordered sequence of Unicode scalar values, represented
here as `List Char`; all offsets are scalar indices; machine numbers are
`Nat`/`Int`; the IEEE-754 double arithmetic of `computeMinMatchLen` is
modelled exactly over dyadic rationals.  Fallible steps (the `null`
dereference reachable in `insertTextImpl`) are modelled with explicit
option/except-style control flow.
-/

namespace FileTools

/-- Unicode whitespace test mirroring the JavaScript regular expression
class `\s` used by the source through `WHITE_SPACE` / `NOT_WHITE_SPACE`:
tab through carriage return, space, NBSP, Ogham space mark, the
`U+2000`–`U+200A` range, line/paragraph separator, narrow NBSP, medium
mathematical space, ideographic space and the BOM. -/
def isWs (c : Char) : Bool :=
  decide ((9 ≤ c.toNat ∧ c.toNat ≤ 13) ∨ c.toNat = 32 ∨ c.toNat = 160 ∨
    c.toNat = 5760 ∨ (8192 ≤ c.toNat ∧ c.toNat ≤ 8202) ∨ c.toNat = 8232 ∨
    c.toNat = 8233 ∨ c.toNat = 8239 ∨ c.toNat = 8287 ∨ c.toNat = 12288 ∨
    c.toNat = 65279)

/-- Result record of `buildFlatRawTextHelpers`: the whitespace-free flat
view, the map from flat indices to raw indices (`flatRawToRaw`) and the map
from raw indices to flat indices (`rawToFlatRaw`). -/
structure FlatHelpers where
  flatRawText : List Char
  flatRawToRaw : List Nat
  rawToFlatRaw : List Nat
  deriving DecidableEq

/-- One left-to-right pass of `buildFlatRawTextHelpers`, carrying the
current raw index `i` and flat index `j`.  A whitespace scalar only records
`rawToFlatRaw[i] = j`; a non-whitespace scalar additionally emits the
character and records `flatRawToRaw[j] = i` before advancing `j`.  (The
source batches whitespace runs in an inner loop; per-character processing
is the same function.) -/
def buildFlatAux : List Char → Nat → Nat → FlatHelpers
  | [], _, _ => ⟨[], [], []⟩
  | c :: rest, i, j =>
    if isWs c then
      let r := buildFlatAux rest (i + 1) j
      ⟨r.flatRawText, r.flatRawToRaw, j :: r.rawToFlatRaw⟩
    else
      let r := buildFlatAux rest (i + 1) (j + 1)
      ⟨c :: r.flatRawText, i :: r.flatRawToRaw, j :: r.rawToFlatRaw⟩

/-- `buildFlatRawTextHelpers` of the source, over the scalar vector. -/
def buildFlatRawTextHelpers (rawTextChars : List Char) : FlatHelpers :=
  buildFlatAux rawTextChars 0 0

/-- A located match: flat-view span together with the raw span it
reconstructs to.  All spans are half-open. -/
structure MatchSpan where
  flatStart : Nat
  flatEndExclusive : Nat
  rawStart : Nat
  rawEndExclusive : Nat
  deriving DecidableEq

instance : Inhabited MatchSpan := ⟨⟨0, 0, 0, 0⟩⟩

/-- `reconstructRawOffset`: a flat index at or past the end of the
flat-to-raw map falls back to the raw length (third argument in the
source). -/
def reconstructRawOffset (flatIndex : Nat) (flatRawToRaw : List Nat)
    (rawLen : Nat) : Nat :=
  if flatIndex ≥ flatRawToRaw.length then rawLen
  else flatRawToRaw.getD flatIndex 0

/-- `reconstructFlatOffset` of the source. -/
def reconstructFlatOffset (rawIndex : Nat) (rawToFlatRaw : List Nat) : Nat :=
  if rawIndex ≥ rawToFlatRaw.length then rawToFlatRaw.length
  else rawToFlatRaw.getD rawIndex 0

/-- `rawEndExclusiveToFlatEndExclusive` of the source. -/
def rawEndExclusiveToFlatEndExclusive (rawEndExclusive : Nat)
    (rawToFlatRaw : List Nat) (rawTextCharsLen rawFlatTextLen : Nat) : Nat :=
  if rawEndExclusive ≥ rawTextCharsLen then rawFlatTextLen
  else if rawEndExclusive = 0 then 0
  else
    min rawFlatTextLen
      (reconstructFlatOffset (rawEndExclusive - 1) rawToFlatRaw + 1)

/-- `reconstructRawSpan` of the source. -/
def reconstructRawSpan (flatStart flatEndExclusive : Nat)
    (flatRawToRaw : List Nat) (rawTextCharsLen : Nat) : Nat × Nat :=
  let rawStart := reconstructRawOffset flatStart flatRawToRaw rawTextCharsLen
  let rawEndExclusive :=
    if flatEndExclusive > 0 then
      reconstructRawOffset (flatEndExclusive - 1) flatRawToRaw
        rawTextCharsLen + 1
    else rawStart
  (rawStart, rawEndExclusive)

/-- `sliceBySpan` of the source (slice of the raw scalar vector). -/
def sliceBySpan (rawTextChars : List Char) (rawStart rawEndExclusive : Nat) :
    List Char :=
  (rawTextChars.drop rawStart).take (rawEndExclusive - rawStart)

/-- `replaceBySpan` of the source: splice `replacementText` over the raw
span. -/
def replaceBySpan (rawTextChars : List Char) (rawStart rawEndExclusive : Nat)
    (replacementText : List Char) : List Char :=
  rawTextChars.take rawStart ++ replacementText ++
    rawTextChars.drop rawEndExclusive

/-- `normalizeText`: remove every whitespace scalar (the source replaces
all maximal `\s+` runs by the empty string, which deletes exactly the
whitespace scalars). -/
def normalizeText (text : List Char) : List Char :=
  text.filter (fun c => !isWs c)

/-- Left-moving loop of `expandLeftToTokenBoundary` skipping whitespace:
`while pos > 0 && WHITE_SPACE.test(chars[pos-1]) pos--`. -/
def skipWsLeft (chars : List Char) : Nat → Nat
  | 0 => 0
  | p + 1 => if isWs (chars.getD p 'a') then skipWsLeft chars p else p + 1

/-- Left-moving loop of `expandLeftToTokenBoundary` skipping the token:
`while pos > 0 && NOT_WHITE_SPACE.test(chars[pos-1]) pos--`. -/
def skipNonWsLeft (chars : List Char) : Nat → Nat
  | 0 => 0
  | p + 1 => if isWs (chars.getD p 'a') then p + 1 else skipNonWsLeft chars p

/-- `expandLeftToTokenBoundary` of the source. -/
def expandLeftToTokenBoundary (rawIndex : Nat) (chars : List Char) : Nat :=
  skipNonWsLeft chars (skipWsLeft chars rawIndex)

/-- Right-moving whitespace skip of `expandRightToTokenBoundary`.  The
loop advances while `pos < length`, so recursing on the exact remaining
distance `length - pos` (kept in lockstep) is the same function, stated
structurally so that the kernel can evaluate it. -/
def skipWsRightGo (chars : List Char) : Nat → Nat → Nat
  | p, 0 => p
  | p, rem + 1 =>
    if p < chars.length then
      if isWs (chars.getD p 'a') then skipWsRightGo chars (p + 1) rem else p
    else p

/-- Entry point of the right-moving whitespace skip. -/
def skipWsRight (chars : List Char) (p : Nat) : Nat :=
  skipWsRightGo chars p (chars.length - p)

/-- Right-moving token skip of `expandRightToTokenBoundary` (same
remaining-distance recursion). -/
def skipNonWsRightGo (chars : List Char) : Nat → Nat → Nat
  | p, 0 => p
  | p, rem + 1 =>
    if p < chars.length then
      if isWs (chars.getD p 'a') then p else skipNonWsRightGo chars (p + 1) rem
    else p

/-- Entry point of the right-moving token skip. -/
def skipNonWsRight (chars : List Char) (p : Nat) : Nat :=
  skipNonWsRightGo chars p (chars.length - p)

/-- `expandRightToTokenBoundary` of the source. -/
def expandRightToTokenBoundary (rawIndex : Nat) (chars : List Char) : Nat :=
  skipNonWsRight chars (skipWsRight chars rawIndex)

/-- `countNonWsInRange` of the source (all calls are in bounds, so the
slice formulation matches the index loop). -/
def countNonWsInRange (rawStart rawEndExclusive : Nat) (chars : List Char) :
    Nat :=
  ((chars.drop rawStart).take (rawEndExclusive - rawStart)).countP
    (fun c => !isWs c)

/-- Does the pattern `P` occur in `T` at position `i` (fully inside)? -/
def occursAt (T P : List Char) (i : Nat) : Bool :=
  decide (i + P.length ≤ T.length) && decide ((T.drop i).take P.length = P)

/-- All occurrence positions of `P` in `T`, in increasing order. -/
def occList (T P : List Char) : List Nat :=
  (List.range T.length).filter (occursAt T P)

/-- `String.prototype.indexOf(P, s)` for a non-empty needle: the smallest
occurrence position that is `≥ s`, if any. -/
def firstOccFrom (T P : List Char) (s : Nat) : Option Nat :=
  (List.range T.length).find? (fun i => decide (s ≤ i) && occursAt T P i)

/-- The exact-phase scan loop of `findMatchSpans`: repeatedly `indexOf`
from `searchStart`, push the match, and continue from `match + 1`, while
`searchStart < |T|` and fewer than `maxMatches` matches were found.  The
second argument is the remaining match budget. -/
def exactLoop (T P : List Char) : Nat → Nat → List Nat
  | _, 0 => []
  | s, b + 1 =>
    if s < T.length then
      match firstOccFrom T P s with
      | none => []
      | some idx => idx :: exactLoop T P (idx + 1) b
    else []

/-- A raw match produced during the fuzzy phase. -/
inductive MatchType where
  | preMatch
  | sufMatch
  | midMatch
  | combinedMatch
  deriving DecidableEq

/-- `RawMatch` of the source: flat span plus number of pattern scalars
matched. -/
structure RawMatch where
  matchType : MatchType
  flatStart : Nat
  flatEndExclusive : Nat
  matchedLen : Nat
  deriving DecidableEq

instance : Inhabited RawMatch := ⟨⟨MatchType.midMatch, 0, 0, 0⟩⟩

/-- Virtual character access of `computeZArray`: pattern, a separator
(`null`, here `none`) at index `|P|`, then the text; both sides reversed
when `reverse` is set.  Out-of-range access yields `none` like the
`undefined` it models. -/
def zCharAt (pattern text : List Char) (rev : Bool) (idx : Nat) :
    Option Char :=
  if idx < pattern.length then
    some (if rev then pattern.getD (pattern.length - 1 - idx) 'a'
      else pattern.getD idx 'a')
  else if idx = pattern.length then none
  else
    let ti := idx - (pattern.length + 1)
    if ti < text.length then
      some (if rev then text.getD (text.length - 1 - ti) 'a'
        else text.getD ti 'a')
    else none

/-- The extension `while` loop of `computeZArray`: counts how many extra
positions match when comparing the virtual string at offsets `a` and `b`,
stopping at the separator, at a mismatch or at `total`. -/
def zExtendGo (cAt : Nat → Option Char) (total : Nat) :
    Nat → Nat → Nat → Nat
  | _, _, 0 => 0
  | a, b, rem + 1 =>
    if b < total then
      match cAt a, cAt b with
      | some x, some y =>
          if x = y then zExtendGo cAt total (a + 1) (b + 1) rem + 1 else 0
      | _, _ => 0
    else 0

/-- Entry point of the extension loop (the loop runs while `b < total`,
so `total - b` steps suffice exactly). -/
def zExtend (cAt : Nat → Option Char) (total a b : Nat) : Nat :=
  zExtendGo cAt total a b (total - b)

/-- Main loop of `computeZArray` over positions `1..total-1`, carrying the
already-computed prefix of the Z-array (index 0 holds the placeholder `0`
until after the loop) and the current `[L, R]` window. -/
def zLoopGo (cAt : Nat → Option Char) (total : Nat) :
    Nat → List Nat → Nat → Nat → Nat → List Nat
  | _, z, _, _, 0 => z
  | pos, z, L, R, rem + 1 =>
    if pos < total then
      let z0 := if pos ≤ R then min (R - pos + 1) (z.getD (pos - L) 0) else 0
      let zf := z0 + zExtend cAt total z0 (pos + z0)
      if pos + zf - 1 > R then
        zLoopGo cAt total (pos + 1) (z ++ [zf]) pos (pos + zf - 1) rem
      else
        zLoopGo cAt total (pos + 1) (z ++ [zf]) L R rem
    else z

/-- Entry point of the Z loop (`total - pos` iterations remain). -/
def zLoop (cAt : Nat → Option Char) (total : Nat) (pos : Nat)
    (z : List Nat) (L R : Nat) : List Nat :=
  zLoopGo cAt total pos z L R (total - pos)

/-- `computeZArray` of the source; the final assignment `z[0] = total`
replaces the placeholder head. -/
def computeZArray (pattern text : List Char) (rev : Bool) : List Nat :=
  let total := pattern.length + 1 + text.length
  let body := zLoop (zCharAt pattern text rev) total 1 [0] 0 0
  total :: body.tail

/-- `computePrefixMatches` of the source: per text position, the capped
Z-value against the pattern. -/
def computePrefixMatches (pattern text : List Char) : List Nat :=
  let z := computeZArray pattern text false
  (List.range text.length).map (fun pos =>
    min (z.getD (pattern.length + 1 + pos) 0) pattern.length)

/-- `computeSuffixMatches` of the source: reverse Z-values re-indexed to
forward start positions, keeping the longer match on collisions.  The
source computes `start` in JavaScript number arithmetic, so the sign guard
is checked over `Int`. -/
def computeSuffixMatches (pattern text : List Char) : List Nat :=
  let z := computeZArray pattern text true
  let n := text.length
  (List.range n).foldl (fun ms rpos =>
    let ml := min (z.getD (pattern.length + 1 + rpos) 0) pattern.length
    if ml = 0 then ms
    else
      let start := n - rpos - ml
      if 0 ≤ (n : Int) - rpos - ml ∧ start < n then
        if ms.getD start 0 < ml then ms.set start ml else ms
      else ms) (List.replicate n 0)

/-- A positive dyadic rational `num / 2 ^ sh`, the value space of the
IEEE-754 doubles appearing in `computeMinMatchLen`. -/
structure Dy where
  num : Nat
  sh : Nat
  deriving DecidableEq

/-- Fuelled binary logarithm (`Nat.log2` is defined by well-founded
recursion, which the kernel cannot unfold; 400 iterations cover every
value `rdRat` produces). -/
def log2Go : Nat → Nat → Nat
  | _, 0 => 0
  | n, f + 1 => if n ≤ 1 then 0 else log2Go (n / 2) f + 1

/-- Binary logarithm of a positive number below `2 ^ 400`. -/
def natLog2 (n : Nat) : Nat := log2Go n 400

/-- Round the positive rational `a / b` to the nearest IEEE-754 double
(round half to even), for magnitudes below `2 ^ 53` — the only ones
`computeMinMatchLen` produces.  The exponent is located with a `2 ^ 300`
scaling so that numerator and denominator need not be normalised. -/
def rdRat (a b : Nat) : Dy :=
  if a = 0 ∨ b = 0 then ⟨0, 0⟩
  else
    let K := natLog2 (a * 2 ^ 300 / b)
    let sh := 352 - K
    let scaled := a * 2 ^ sh
    let n := scaled / b
    let rem := scaled % b
    let mant :=
      if b < 2 * rem then n + 1
      else if 2 * rem < b then n
      else if n % 2 = 0 then n else n + 1
    ⟨mant, sh⟩

/-- Round a dyadic value to double precision. -/
def rdDy (d : Dy) : Dy := rdRat d.num (2 ^ d.sh)

/-- Exact sum of dyadics followed by double rounding. -/
def addDy (x y : Dy) : Dy :=
  rdRat (x.num * 2 ^ y.sh + y.num * 2 ^ x.sh) (2 ^ (x.sh + y.sh))

/-- Exact difference (the uses are nonnegative) followed by rounding. -/
def subDy (x y : Dy) : Dy :=
  rdRat (x.num * 2 ^ y.sh - y.num * 2 ^ x.sh) (2 ^ (x.sh + y.sh))

/-- Exact product of dyadics followed by double rounding. -/
def mulDy (x y : Dy) : Dy := rdRat (x.num * y.num) (2 ^ (x.sh + y.sh))

/-- `Math.min` on dyadics (exact comparison). -/
def minDy (x y : Dy) : Dy :=
  if x.num * 2 ^ y.sh ≤ y.num * 2 ^ x.sh then x else y

/-- `Math.ceil` on a dyadic value. -/
def ceilDy (d : Dy) : Nat := (d.num + (2 ^ d.sh - 1)) / 2 ^ d.sh

/-- `computeMinMatchLen` of the source, with its IEEE-754 double
arithmetic modelled exactly: the literals `0.4` and `0.8` are the nearest
doubles to those decimals, and every arithmetic operation rounds its exact
result to double precision. -/
def computeMinMatchLen (flatSearchTextLen : Nat) : Nat :=
  if flatSearchTextLen ≤ 8 then min 3 flatSearchTextLen
  else
    let minPercent := rdRat 2 5
    let maxPercent := rdRat 4 5
    let scaleFactor := minDy (rdRat flatSearchTextLen 1500) ⟨1, 0⟩
    let percent :=
      addDy minPercent (mulDy (subDy maxPercent minPercent) scaleFactor)
    ceilDy (mulDy ⟨flatSearchTextLen, 0⟩ percent)

/-- A state of the suffix automaton (`SAMNode` of the source).  `minEnd`
and `maxEnd` start at `+Infinity` / `-Infinity`, modelled as `none`. -/
structure SAMNode where
  next : List (Char × Nat)
  link : Int
  len : Nat
  firstPos : Int
  minEnd : Option Int
  maxEnd : Option Int
  deriving DecidableEq

instance : Inhabited SAMNode := ⟨⟨[], -1, 0, -1, none, none⟩⟩

/-- `Map.prototype.get` on the transition map. -/
def mapGet (m : List (Char × Nat)) (c : Char) : Option Nat :=
  (m.find? (fun p => p.1 == c)).map (fun p => p.2)

/-- `Map.prototype.set` on the transition map: overwrite an existing key,
otherwise append. -/
def mapSet (m : List (Char × Nat)) (c : Char) (v : Nat) :
    List (Char × Nat) :=
  if (m.find? (fun p => p.1 == c)).isSome then
    m.map (fun p => if p.1 == c then (c, v) else p)
  else m ++ [(c, v)]

/-- The automaton: node array plus the index of the `last` state. -/
structure SuffixAutomaton where
  nodes : List SAMNode
  last : Nat
  deriving DecidableEq

/-- Update node `i` in place. -/
def setNode (nodes : List SAMNode) (i : Nat) (f : SAMNode → SAMNode) :
    List SAMNode :=
  nodes.set i (f (nodes.getD i default))

/-- First `while` loop of `addChar`: walk suffix links from `last`,
installing the transition `c ↦ cur` while absent.  Returns the updated
node array and the stopping state (`-1` or a state owning a
`c`-transition).  The fuel passed by `addChar` exceeds any suffix-link
chain length, so the fuel-exhausted branch is never taken. -/
def samSetLoop (c : Char) (cur : Nat) :
    Nat → List SAMNode → Int → List SAMNode × Int
  | 0, nodes, p => (nodes, p)
  | fuel + 1, nodes, p =>
    if p = -1 then (nodes, p)
    else if (mapGet (nodes.getD p.toNat default).next c).isSome then
      (nodes, p)
    else
      samSetLoop c cur fuel
        (setNode nodes p.toNat (fun n => { n with next := mapSet n.next c cur }))
        (nodes.getD p.toNat default).link

/-- Clone-redirect `while` loop of `addChar`: walk suffix links from `p`,
rerouting `c`-transitions from `q` to `clone` while they point to `q`. -/
def samRedirectLoop (c : Char) (clone q : Nat) :
    Nat → List SAMNode → Int → List SAMNode
  | 0, nodes, _ => nodes
  | fuel + 1, nodes, p =>
    if p = -1 then nodes
    else if mapGet (nodes.getD p.toNat default).next c = some q then
      samRedirectLoop c clone q fuel
        (setNode nodes p.toNat
          (fun n => { n with next := mapSet n.next c clone }))
        (nodes.getD p.toNat default).link
    else nodes

/-- `SuffixAutomaton.addChar` of the source. -/
def addChar (sam : SuffixAutomaton) (c : Char) : SuffixAutomaton :=
  let cur := sam.nodes.length
  let lastLen := (sam.nodes.getD sam.last default).len
  let newNode : SAMNode :=
    { next := [], link := -1, len := lastLen + 1,
      firstPos := (lastLen : Int),
      minEnd := some (lastLen : Int), maxEnd := some (lastLen : Int) }
  let nodes0 := sam.nodes ++ [newNode]
  let fuel := nodes0.length + 2
  let walked := samSetLoop c cur fuel nodes0 (sam.last : Int)
  let nodes1 := walked.1
  let p := walked.2
  if p = -1 then
    { nodes := setNode nodes1 cur (fun n => { n with link := 0 }),
      last := cur }
  else
    let pn := p.toNat
    let q := (mapGet (nodes1.getD pn default).next c).getD 0
    if (nodes1.getD pn default).len + 1 = (nodes1.getD q default).len then
      { nodes := setNode nodes1 cur (fun n => { n with link := (q : Int) }),
        last := cur }
    else
      let clone := nodes1.length
      let qNode := nodes1.getD q default
      let cloneNode : SAMNode :=
        { next := qNode.next, link := qNode.link,
          len := (nodes1.getD pn default).len + 1,
          firstPos := qNode.firstPos,
          minEnd := some qNode.firstPos, maxEnd := some qNode.firstPos }
      let nodes2 := nodes1 ++ [cloneNode]
      let nodes3 := samRedirectLoop c clone q fuel nodes2 p
      let nodes4 :=
        setNode nodes3 q (fun n => { n with link := (clone : Int) })
      let nodes5 :=
        setNode nodes4 cur (fun n => { n with link := (clone : Int) })
      { nodes := nodes5, last := cur }

/-- `Math.min` against a `+Infinity`-defaulted accumulator. -/
def minEndCombine (a b : Option Int) : Option Int :=
  match a, b with
  | none, x => x
  | x, none => x
  | some a1, some b1 => some (min a1 b1)

/-- `Math.max` against a `-Infinity`-defaulted accumulator. -/
def maxEndCombine (a b : Option Int) : Option Int :=
  match a, b with
  | none, x => x
  | x, none => x
  | some a1, some b1 => some (max a1 b1)

/-- One step of the bottom-up propagation pass: fold `v`'s end bounds into
its suffix-link target (guarded by `link >= 0` as in the source). -/
def propagateStep (nodes : List SAMNode) (v : Nat) : List SAMNode :=
  let link := (nodes.getD v default).link
  if 0 ≤ link then
    setNode nodes link.toNat (fun n =>
      { n with
          minEnd := minEndCombine n.minEnd (nodes.getD v default).minEnd,
          maxEnd := maxEndCombine n.maxEnd (nodes.getD v default).maxEnd })
  else nodes

/-- The node indices sorted by ascending `len` (the source sorts the key
array with the comparator `len a - len b`; any sort agreeing with that
order is observationally equal for the propagation pass). -/
def samOrder (nodes : List SAMNode) : List Nat :=
  (List.range nodes.length).insertionSort
    (fun a b => (nodes.getD a default).len ≤ (nodes.getD b default).len)

/-- `SuffixAutomaton.build`: feed every pattern character through
`addChar`, then propagate `minEnd`/`maxEnd` along suffix links iterating
the len-sorted order from the back, skipping index 0 (the root). -/
def SuffixAutomaton.build (s : List Char) : SuffixAutomaton :=
  let sam := s.foldl addChar ⟨[default], 0⟩
  let order := samOrder sam.nodes
  { sam with nodes := ((order.drop 1).reverse).foldl propagateStep sam.nodes }

/-- Suffix-link walk of the streaming scan (`while` loop of
`findPotentialMatches`): follow links from `p` until a state with a
`c`-transition or the pseudo-state `-1` is reached. -/
def samWalk (nodes : List SAMNode) (c : Char) : Nat → Int → Int
  | 0, p => p
  | fuel + 1, p =>
    if p = -1 then p
    else if (mapGet (nodes.getD p.toNat default).next c).isSome then p
    else samWalk nodes c fuel (nodes.getD p.toNat default).link

/-- One character step of the streaming scan: take the transition if
present, otherwise fall back along suffix links, resetting at the root. -/
def samStep (nodes : List SAMNode) (c : Char) (state len : Nat) :
    Nat × Nat :=
  match mapGet (nodes.getD state default).next c with
  | some nxt => (nxt, len + 1)
  | none =>
    let p := samWalk nodes c (nodes.length + 2) (state : Int)
    if p = -1 then (0, 0)
    else
      let pn := p.toNat
      ((mapGet (nodes.getD pn default).next c).getD 0,
        (nodes.getD pn default).len + 1)

/-- The scan loop of `findPotentialMatches` collecting `mid` raw matches:
after each step, emit a `mid` candidate exactly when the current length
reaches `minMatchLen` and the state is neither a prefix occurrence
(`minEnd = len - 1`) nor a suffix occurrence (`maxEnd = m - 1`). -/
def midScanAux (nodes : List SAMNode) (m minMatchLen : Nat) :
    List Char → Nat → Nat → Nat → List RawMatch
  | [], _, _, _ => []
  | c :: rest, i, state, len =>
    let step := samStep nodes c state len
    let emit :=
      if minMatchLen ≤ step.2 ∧
          ¬((nodes.getD step.1 default).minEnd = some ((step.2 : Int) - 1)) ∧
          ¬((nodes.getD step.1 default).maxEnd = some ((m : Int) - 1)) then
        [RawMatch.mk MatchType.midMatch (i + 1 - step.2) (i + 1) step.2]
      else []
    emit ++ midScanAux nodes m minMatchLen rest (i + 1) step.1 step.2

/-- The `mid` stage of the fuzzy phase: stream the flat text through the
automaton from the root. -/
def midStage (nodes : List SAMNode) (T : List Char) (m minMatchLen : Nat) :
    List RawMatch :=
  midScanAux nodes m minMatchLen T 0 0 0

/-- The `(state, len)` pair held by the streaming scan after each
character of the text, starting from the given pair. -/
def samScanStates (nodes : List SAMNode) :
    List Char → Nat → Nat → List (Nat × Nat)
  | [], _, _ => []
  | c :: rest, state, len =>
    let step := samStep nodes c state len
    step :: samScanStates nodes rest step.1 step.2

/-- Binary-search recursion of `lowerBoundSuffix`, recursing on the gap
`hi - lo` (which shrinks strictly every round, so the fuel supplied by the
entry point is exact). -/
def lbGo (arr : List RawMatch) (startPos : Nat) : Nat → Nat → Nat → Nat
  | lo, _, 0 => lo
  | lo, hi, rem + 1 =>
    if lo < hi then
      let mid := (lo + hi) / 2
      if (arr.getD mid default).flatStart < startPos then
        lbGo arr startPos (mid + 1) hi rem
      else lbGo arr startPos lo mid rem
    else lo

/-- `lowerBoundSuffix` of the source: on a flat-start-sorted array, the
first index whose `flatStart` is at least `startPos`. -/
def lowerBoundSuffix (arr : List RawMatch) (startPos : Nat) : Nat :=
  lbGo arr startPos 0 arr.length arr.length

/-- Inner loop of the combined-candidate construction for one kept prefix
match: `continue` below the span window (the comparisons `rawSpan <
0.75*m` and `rawSpan > 1.25*m` are exact in doubles and are stated over
`Int` as `4*span < 3*m` and `4*span > 5*m`), `break` above it, and emit
when the two matched lengths reach `minMatchLen` together. -/
def combinedForPre (pre : RawMatch) (m minMatchLen : Nat) :
    List RawMatch → List RawMatch
  | [] => []
  | suf :: rest =>
    if suf.flatStart < pre.flatEndExclusive then
      combinedForPre pre m minMatchLen rest
    else
      let rawSpan : Int := (suf.flatEndExclusive : Int) - (pre.flatStart : Int)
      if 4 * rawSpan < 3 * (m : Int) then combinedForPre pre m minMatchLen rest
      else if 5 * (m : Int) < 4 * rawSpan then []
      else if minMatchLen ≤ pre.matchedLen + suf.matchedLen then
        RawMatch.mk MatchType.combinedMatch pre.flatStart suf.flatEndExclusive
            (pre.matchedLen + suf.matchedLen) ::
          combinedForPre pre m minMatchLen rest
      else combinedForPre pre m minMatchLen rest

/-- Combined-candidate stage of the fuzzy phase, over the half-threshold
filtered prefix and suffix raw matches: sort the suffixes by `flatStart`,
then for each prefix start the inner loop at the binary-searched lower
bound. -/
def combinedStage (filteredPrefixes filteredSuffixes : List RawMatch)
    (m minMatchLen : Nat) : List RawMatch :=
  if filteredPrefixes.length ≠ 0 ∧ filteredSuffixes.length ≠ 0 then
    let sortedSuf :=
      filteredSuffixes.insertionSort (fun a b => a.flatStart ≤ b.flatStart)
    filteredPrefixes.flatMap (fun pre =>
      combinedForPre pre m minMatchLen
        (sortedSuf.drop (lowerBoundSuffix sortedSuf pre.flatEndExclusive)))
  else []

/-- Widening loop of `createPrefixCandidate` (fuelled; the end strictly
grows every iteration and is bounded by the text length, so the supplied
fuel is never exhausted). -/
def prefWiden (chars : List Char) (rawStart targetLen : Nat) :
    Nat → Nat → Nat
  | e, 0 => e
  | e, fuel + 1 =>
    if countNonWsInRange rawStart e chars < targetLen ∧ e < chars.length then
      let next := expandRightToTokenBoundary (e + 1) chars
      if next ≤ e then e else prefWiden chars rawStart targetLen next fuel
    else e

/-- `createPrefixCandidate` of the source. -/
def createPrefixCandidate (flatStart targetLen : Nat)
    (rawTextChars : List Char) (flatRawToRaw rawToFlatRaw : List Nat) :
    Option MatchSpan :=
  let rawStart := reconstructRawOffset flatStart flatRawToRaw
    rawTextChars.length
  if rawStart ≥ rawTextChars.length then none
  else
    let e0 := expandRightToTokenBoundary rawStart rawTextChars
    let expandedEnd :=
      prefWiden rawTextChars rawStart targetLen e0 (rawTextChars.length + 1)
    some ⟨reconstructFlatOffset rawStart rawToFlatRaw,
      rawEndExclusiveToFlatEndExclusive expandedEnd rawToFlatRaw
        rawTextChars.length flatRawToRaw.length,
      rawStart, expandedEnd⟩

/-- Widening loop of `createSuffixCandidate` (fuelled; the start strictly
shrinks every iteration). -/
def sufWiden (chars : List Char) (rawEndExclusive targetLen : Nat) :
    Nat → Nat → Nat
  | s, 0 => s
  | s, fuel + 1 =>
    if countNonWsInRange s rawEndExclusive chars < targetLen ∧ 0 < s then
      let prev := expandLeftToTokenBoundary (s - 1) chars
      if s ≤ prev then s else sufWiden chars rawEndExclusive targetLen prev fuel
    else s

/-- `createSuffixCandidate` of the source (note: the raw end is
reconstructed from `flatEndExclusive` itself, not `flatEndExclusive - 1`,
and the candidate is dropped when that lands past the raw text). -/
def createSuffixCandidate (flatEndExclusive targetLen : Nat)
    (rawTextChars : List Char) (flatRawToRaw rawToFlatRaw : List Nat) :
    Option MatchSpan :=
  let rawEndExclusive := reconstructRawOffset flatEndExclusive flatRawToRaw
    rawTextChars.length + 1
  if rawTextChars.length < rawEndExclusive then none
  else
    let s0 := expandLeftToTokenBoundary (rawEndExclusive - 1) rawTextChars
    let expandedStart :=
      sufWiden rawTextChars rawEndExclusive targetLen s0
        (rawTextChars.length + 1)
    some ⟨reconstructFlatOffset expandedStart rawToFlatRaw,
      rawEndExclusiveToFlatEndExclusive rawEndExclusive rawToFlatRaw
        rawTextChars.length flatRawToRaw.length,
      expandedStart, rawEndExclusive⟩

/-- `createCombinedCandidate` of the source: raw span endpoints are used
as reconstructed, with no token expansion. -/
def createCombinedCandidate (prefixFlatStart suffixFlatEndExclusive : Nat)
    (rawTextChars : List Char) (flatRawToRaw rawToFlatRaw : List Nat) :
    Option MatchSpan :=
  if flatRawToRaw.length ≤ prefixFlatStart then none
  else if flatRawToRaw.length ≤ suffixFlatEndExclusive - 1 then none
  else
    let rawStart := reconstructRawOffset prefixFlatStart flatRawToRaw
      rawTextChars.length
    let rawEndExclusive := reconstructRawOffset (suffixFlatEndExclusive - 1)
      flatRawToRaw rawTextChars.length + 1
    if rawTextChars.length ≤ rawStart ∨ rawTextChars.length < rawEndExclusive
    then none
    else
      some ⟨reconstructFlatOffset rawStart rawToFlatRaw,
        rawEndExclusiveToFlatEndExclusive rawEndExclusive rawToFlatRaw
          rawTextChars.length flatRawToRaw.length,
        rawStart, rawEndExclusive⟩

/-- Alternating widening loop of `createMidCandidate` (fuelled; every
iteration that changes nothing breaks, and each productive iteration grows
the window). -/
def midWiden (chars : List Char) (targetLen : Nat) :
    Nat → Nat → Nat → Nat × Nat
  | s, e, 0 => (s, e)
  | s, e, fuel + 1 =>
    if countNonWsInRange s e chars < targetLen then
      let before := countNonWsInRange s e chars
      let s1 :=
        if 0 < s then
          let newLeft := expandLeftToTokenBoundary (s - 1) chars
          if newLeft < s then newLeft else s
        else s
      let e1 :=
        if e < chars.length then
          let newRight := expandRightToTokenBoundary (e + 1) chars
          if e < newRight then newRight else e
        else e
      if countNonWsInRange s1 e1 chars = before then (s1, e1)
      else midWiden chars targetLen s1 e1 fuel
    else (s, e)

/-- `createMidCandidate` of the source. -/
def createMidCandidate (flatStart flatEndExclusive targetLen : Nat)
    (rawTextChars : List Char) (flatRawToRaw rawToFlatRaw : List Nat) :
    Option MatchSpan :=
  if flatRawToRaw.length ≤ flatStart then none
  else if flatRawToRaw.length ≤ flatEndExclusive - 1 then none
  else
    let rawStart := reconstructRawOffset flatStart flatRawToRaw
      rawTextChars.length
    let rawEndExclusive := reconstructRawOffset (flatEndExclusive - 1)
      flatRawToRaw rawTextChars.length + 1
    if rawTextChars.length ≤ rawStart ∨ rawTextChars.length < rawEndExclusive
    then none
    else
      let s0 := expandLeftToTokenBoundary rawStart rawTextChars
      let e0 := expandRightToTokenBoundary rawEndExclusive rawTextChars
      let widened :=
        midWiden rawTextChars targetLen s0 e0 (rawTextChars.length + 2)
      some ⟨reconstructFlatOffset widened.1 rawToFlatRaw,
        rawEndExclusiveToFlatEndExclusive widened.2 rawToFlatRaw
          rawTextChars.length flatRawToRaw.length,
        widened.1, widened.2⟩

/-- The prefix raw matches of the fuzzy phase: every position with a
positive (capped) prefix match length. -/
def prefixRawMatches (flatSearchText flatRawText : List Char) :
    List RawMatch :=
  let prefLens := computePrefixMatches flatSearchText flatRawText
  (List.range flatRawText.length).filterMap (fun i =>
    let L := min (prefLens.getD i 0) flatSearchText.length
    if L = 0 then none
    else some (RawMatch.mk MatchType.preMatch i (i + L) L))

/-- The suffix raw matches of the fuzzy phase. -/
def suffixRawMatches (flatSearchText flatRawText : List Char) :
    List RawMatch :=
  let sufLens := computeSuffixMatches flatSearchText flatRawText
  (List.range flatRawText.length).filterMap (fun s =>
    let L := min (sufLens.getD s 0) flatSearchText.length
    if L = 0 then none
    else some (RawMatch.mk MatchType.sufMatch s (s + L) L))

/-- Deduplication of the ranked raw matches by flat span, keeping first
occurrences (the `seen`-set loop of the source). -/
def dedupAux (seen : List (Nat × Nat)) : List RawMatch → List RawMatch
  | [] => []
  | x :: rest =>
    if (x.flatStart, x.flatEndExclusive) ∈ seen then dedupAux seen rest
    else x :: dedupAux ((x.flatStart, x.flatEndExclusive) :: seen) rest

/-- `findPotentialMatches` of the source: assemble prefix, suffix, `mid`
and combined raw matches, keep the globally longest ones, deduplicate,
sort, cap at 3 and materialise candidate spans. -/
def findPotentialMatches (flatRawText flatSearchText rawTextChars : List Char)
    (flatRawToRaw rawToFlatRaw : List Nat) : List MatchSpan :=
  let n := flatRawText.length
  let m := flatSearchText.length
  if m = 0 ∨ n = 0 then []
  else
    let minMatchLen := computeMinMatchLen m
    let prefixMatches := prefixRawMatches flatSearchText flatRawText
    let suffixMatches := suffixRawMatches flatSearchText flatRawText
    let sam := SuffixAutomaton.build flatSearchText
    let midMatches := midStage sam.nodes flatRawText m minMatchLen
    let prefixThreshold := max 1 (minMatchLen / 2)
    let filteredPrefixes :=
      prefixMatches.filter (fun x => prefixThreshold ≤ x.matchedLen)
    let filteredSuffixes :=
      suffixMatches.filter (fun x => prefixThreshold ≤ x.matchedLen)
    let combinedMatches :=
      combinedStage filteredPrefixes filteredSuffixes m minMatchLen
    let qualifiedPrefixes :=
      filteredPrefixes.filter (fun x => minMatchLen ≤ x.matchedLen)
    let qualifiedSuffixes :=
      filteredSuffixes.filter (fun x => minMatchLen ≤ x.matchedLen)
    let allCandidatesRaw :=
      qualifiedPrefixes ++ qualifiedSuffixes ++ midMatches ++ combinedMatches
    if allCandidatesRaw.length = 0 then []
    else
      let maxLen := (allCandidatesRaw.map (fun x => x.matchedLen)).foldl max 0
      let longestMatches :=
        allCandidatesRaw.filter (fun x => x.matchedLen == maxLen)
      let uniqueLongest :=
        (dedupAux [] longestMatches).insertionSort
          (fun a b => a.flatStart ≤ b.flatStart)
      (uniqueLongest.take 3).filterMap (fun x =>
        match x.matchType with
        | MatchType.preMatch =>
          createPrefixCandidate x.flatStart m rawTextChars flatRawToRaw
            rawToFlatRaw
        | MatchType.sufMatch =>
          createSuffixCandidate x.flatEndExclusive m rawTextChars flatRawToRaw
            rawToFlatRaw
        | MatchType.midMatch =>
          createMidCandidate x.flatStart x.flatEndExclusive m rawTextChars
            flatRawToRaw rawToFlatRaw
        | MatchType.combinedMatch =>
          createCombinedCandidate x.flatStart x.flatEndExclusive rawTextChars
            flatRawToRaw rawToFlatRaw)

instance : IsTotal RawMatch (fun a b => a.flatStart ≤ b.flatStart) :=
  ⟨fun a b => Nat.le_total a.flatStart b.flatStart⟩

instance : IsTrans RawMatch (fun a b => a.flatStart ≤ b.flatStart) :=
  ⟨fun _ _ _ h1 h2 => Nat.le_trans h1 h2⟩

/-- Result of `findMatchSpans`. -/
structure MatchResult where
  spans : List MatchSpan
  isExactMatch : Bool
  deriving DecidableEq

/-- The span a single exact occurrence turns into. -/
def exactSpanOf (flatSearchTextLen : Nat) (flatRawToRaw : List Nat)
    (rawTextCharsLen : Nat) (idx : Nat) : MatchSpan :=
  let raw := reconstructRawSpan idx (idx + flatSearchTextLen)
    flatRawToRaw rawTextCharsLen
  MatchSpan.mk idx (idx + flatSearchTextLen) raw.1 raw.2

/-- The `exactMatches` list accumulated by the scan loop of
`findMatchSpans`. -/
def exactSpans (flatRawText flatSearchText : List Char)
    (flatRawToRaw : List Nat) (rawTextCharsLen maxMatches : Nat) :
    List MatchSpan :=
  (exactLoop flatRawText flatSearchText 0 maxMatches).map
    (exactSpanOf flatSearchText.length flatRawToRaw rawTextCharsLen)

/-- `findMatchSpans` of the source (the call sites use the default
`maxMatches = 3`, passed explicitly here). -/
def findMatchSpans (flatRawText flatSearchText rawTextChars : List Char)
    (flatRawToRaw rawToFlatRaw : List Nat) (maxMatches : Nat) : MatchResult :=
  if flatRawText.length = 0 then ⟨[], false⟩
  else if flatSearchText.length = 0 then ⟨[], false⟩
  else if (exactSpans flatRawText flatSearchText flatRawToRaw
      rawTextChars.length maxMatches).length ≠ 0 then
    ⟨(exactSpans flatRawText flatSearchText flatRawToRaw
        rawTextChars.length maxMatches).insertionSort
      (fun a b => a.flatStart ≤ b.flatStart), true⟩
  else
    ⟨findPotentialMatches flatRawText flatSearchText rawTextChars
      flatRawToRaw rawToFlatRaw, false⟩

/-- The matcher exactly as every operation invokes it: build the flat
helpers for the raw text and search for the normalised search text with
the default `maxMatches = 3`. -/
def runMatcher (rawText searchText : List Char) : MatchResult :=
  findMatchSpans (buildFlatRawTextHelpers rawText).flatRawText
    (normalizeText searchText) rawText
    (buildFlatRawTextHelpers rawText).flatRawToRaw
    (buildFlatRawTextHelpers rawText).rawToFlatRaw 3

/-- The parameter a suggestion or error message refers to. -/
inductive PName where
  | searchText
  | anchorText
  | anchorBlockStartMarker
  | anchorBlockEndMarker
  | textToBeMoved
  deriving DecidableEq

/-- The structured messages an operation can answer with (the catalogue of
`messages` in the source, keeping exactly the data the operations compute:
the parameter an error refers to, the action and occurrence count of a
replace success, and whether an unexpected exception was caught). -/
inductive Msg where
  | validationFailed
  | identicalText
  | noMatchFound (p : PName)
  | multipleMatches (p : PName)
  | overlapError
  | unexpectedError
  | successReplaced (replaced : Bool) (count : Nat)
  | successInserted
  | successMoved
  deriving DecidableEq

/-- The response of one operation: success flag, message, and the
`SuggestedParameterValues` payloads when the field is present. -/
structure OpResult where
  success : Bool
  message : Msg
  suggestions : Option (List (List Char))
  deriving DecidableEq

/-- `expandSpanForDisambiguation` of the source: try to widen the span by
one token on each side, clamped to the text. -/
def expandSpanForDisambiguation (span : MatchSpan) (rawTextChars : List Char)
    (rawToFlatRaw : List Nat) : MatchSpan :=
  let newStart := expandLeftToTokenBoundary (span.rawStart - 1) rawTextChars
  let rawStart := if newStart < span.rawStart then newStart else span.rawStart
  let newEnd := expandRightToTokenBoundary
    (min rawTextChars.length (span.rawEndExclusive + 1)) rawTextChars
  let rawEndExclusive :=
    if span.rawEndExclusive < newEnd then newEnd else span.rawEndExclusive
  ⟨reconstructFlatOffset rawStart rawToFlatRaw,
    reconstructFlatOffset (rawEndExclusive - 1) rawToFlatRaw + 1,
    rawStart, rawEndExclusive⟩

/-- One round of the disambiguation `do/while` loop over the span states
(`Bool` marks a non-expandable span): group the not-yet-abandoned spans by
flat content, widen every member of a duplicate group or mark it
non-expandable, and report whether duplicates existed. -/
def disambIter (rawTextChars flatRawText : List Char)
    (rawToFlatRaw : List Nat) (state : List (MatchSpan × Bool)) :
    List (MatchSpan × Bool) × Bool :=
  let contents := state.map (fun s =>
    (flatRawText.drop s.1.flatStart).take
      (s.1.flatEndExclusive - s.1.flatStart))
  let isDup : Nat → Bool := fun idx =>
    !(state.getD idx (default, false)).2 &&
    ((List.range state.length).any (fun j =>
      j != idx && !(state.getD j (default, false)).2 &&
      contents.getD j [] == contents.getD idx []))
  let newState := (List.range state.length).map (fun idx =>
    let s := state.getD idx (default, false)
    if isDup idx then
      let expanded := expandSpanForDisambiguation s.1 rawTextChars rawToFlatRaw
      if expanded.rawStart ≠ s.1.rawStart ∨
          expanded.rawEndExclusive ≠ s.1.rawEndExclusive then
        (expanded, s.2)
      else (s.1, true)
    else s)
  (newState, (List.range state.length).any isDup)

/-- The disambiguation `do/while` loop (fuelled; each round either widens
a span or retires one, so the fuel passed by the caller is ample). -/
def disambLoop (rawTextChars flatRawText : List Char)
    (rawToFlatRaw : List Nat) :
    List (MatchSpan × Bool) → Nat → List (MatchSpan × Bool)
  | state, 0 => state
  | state, fuel + 1 =>
    let step := disambIter rawTextChars flatRawText rawToFlatRaw state
    if step.2 then disambLoop rawTextChars flatRawText rawToFlatRaw step.1 fuel
    else step.1

/-- `generateDisambiguationSuggestionsFromSpans` of the source: expand
duplicate spans until their projections are distinct, then emit raw
slices. -/
def generateDisambiguationSuggestionsFromSpans (spans : List MatchSpan)
    (rawTextChars flatRawText : List Char) (rawToFlatRaw : List Nat) :
    List (List Char) :=
  if spans.length = 0 then []
  else
    (disambLoop rawTextChars flatRawText rawToFlatRaw
        (spans.map (fun s => (s, false)))
        ((spans.length + 1) * (rawTextChars.length + 2))).map
      (fun s => sliceBySpan rawTextChars s.1.rawStart s.1.rawEndExclusive)

/-- `handleSearchTextMatchIssues` of the source: a failure response whose
suggestions are the disambiguation slices of the given spans. -/
def handleSearchTextMatchIssues (spans : List MatchSpan)
    (rawTextChars flatRawText : List Char) (rawToFlatRaw : List Nat)
    (message : PName → Msg) (p : PName) : OpResult :=
  { success := false, message := message p,
    suggestions := some (generateDisambiguationSuggestionsFromSpans spans
      rawTextChars flatRawText rawToFlatRaw) }

/-- `searchTextAndReplace` of the source after the file read, as a pure
function from the file content to the response and the content on disk
after the operation (unchanged whenever no write happens).  The
`fileValidation` argument injects the outcome of
`validateTextFileToEdit`. -/
def searchTextAndReplace (fileValidation : Option Msg) (rawText : List Char)
    (searchText replacementText : List Char)
    (actionAllMatches validateReplaceText : Bool) : OpResult × List Char :=
  match fileValidation with
  | some m => ({ success := false, message := m, suggestions := none }, rawText)
  | none =>
    if validateReplaceText ∧ searchText = replacementText then
      ({ success := false, message := Msg.identicalText, suggestions := none },
        rawText)
    else
      let res := runMatcher rawText searchText
      if ¬(res.isExactMatch = true) ∨ res.spans.length = 0 then
        (handleSearchTextMatchIssues res.spans rawText
          (buildFlatRawTextHelpers rawText).flatRawText
          (buildFlatRawTextHelpers rawText).rawToFlatRaw
          Msg.noMatchFound PName.searchText, rawText)
      else if ¬actionAllMatches ∧ 1 < res.spans.length then
        (handleSearchTextMatchIssues res.spans rawText
          (buildFlatRawTextHelpers rawText).flatRawText
          (buildFlatRawTextHelpers rawText).rawToFlatRaw
          Msg.multipleMatches PName.searchText, rawText)
      else
        let newChars := (res.spans.reverse).foldl
          (fun cs sp => replaceBySpan cs sp.rawStart sp.rawEndExclusive
            replacementText)
          rawText
        ({ success := true,
           message := Msg.successReplaced (replacementText ≠ [])
             res.spans.length,
           suggestions := none }, newChars)

/-- JavaScript truthiness of an optional string parameter: absent and
empty both behave as "not provided". -/
def truthy (o : Option (List Char)) : Option (List Char) :=
  match o with
  | none => none
  | some s => if s = [] then none else some s

/-- First occurrence of `\r\n`, `\n` or `\r`, defaulting to `\n` (the
line-ending probe every mutating operation performs). -/
def detectLineEnding : List Char → List Char
  | [] => ['\n']
  | c :: rest =>
    if c = '\r' then
      match rest with
      | '\n' :: _ => ['\r', '\n']
      | _ => ['\r']
    else if c = '\n' then ['\n']
    else detectLineEnding rest

/-- Block-start resolution shared by `insertTextImpl` and `moveTextImpl`:
no marker means no scoping, otherwise the first exact match is used. -/
def resolveBlockStart (rawText : List Char) (marker : Option (List Char)) :
    Except OpResult (Option MatchSpan) :=
  match marker with
  | none => Except.ok none
  | some sm =>
    let r := runMatcher rawText sm
    if ¬(r.isExactMatch = true) ∨ r.spans.length = 0 then
      Except.error (handleSearchTextMatchIssues r.spans rawText
        (buildFlatRawTextHelpers rawText).flatRawText
        (buildFlatRawTextHelpers rawText).rawToFlatRaw
        Msg.noMatchFound PName.anchorBlockStartMarker)
    else Except.ok (some (r.spans.getD 0 default))

/-- Block-end resolution of `moveTextImpl`: the filter guards the absent
block start explicitly (`!blockStartSpan || ...`), and the last valid
match is used. -/
def resolveBlockEndMove (rawText : List Char)
    (blockStartSpan : Option MatchSpan) (marker : Option (List Char)) :
    Except OpResult (Option MatchSpan) :=
  match marker with
  | none => Except.ok none
  | some em =>
    let r := runMatcher rawText em
    let validEndSpans := r.spans.filter (fun e =>
      match blockStartSpan with
      | none => true
      | some bs => bs.rawEndExclusive ≤ e.rawStart)
    if ¬(r.isExactMatch = true) ∨ validEndSpans.length = 0 then
      Except.error (handleSearchTextMatchIssues r.spans rawText
        (buildFlatRawTextHelpers rawText).flatRawText
        (buildFlatRawTextHelpers rawText).rawToFlatRaw
        Msg.noMatchFound PName.anchorBlockEndMarker)
    else
      Except.ok (some (validEndSpans.getD (validEndSpans.length - 1) default))

/-- Block-end resolution of `insertTextImpl`: its filter dereferences
`blockStartSpan.rawEndExclusive` without a null guard, so a missing block
start throws as soon as the filter callback runs — that is, whenever the
end-marker search produced any span at all.  The thrown `TypeError` is
modelled as the distinguished error the outer `catch` wraps. -/
def resolveBlockEndInsert (rawText : List Char)
    (blockStartSpan : Option MatchSpan) (marker : Option (List Char)) :
    Except OpResult (Option MatchSpan) :=
  match marker with
  | none => Except.ok none
  | some em =>
    let r := runMatcher rawText em
    match blockStartSpan, r.spans with
    | none, [] =>
      Except.error (handleSearchTextMatchIssues r.spans rawText
        (buildFlatRawTextHelpers rawText).flatRawText
        (buildFlatRawTextHelpers rawText).rawToFlatRaw
        Msg.noMatchFound PName.anchorBlockEndMarker)
    | none, _ :: _ =>
      Except.error (OpResult.mk false Msg.unexpectedError none)
    | some bs, spans =>
      let validEndSpans := spans.filter (fun e =>
        bs.rawEndExclusive ≤ e.rawStart)
      if ¬(r.isExactMatch = true) ∨ validEndSpans.length = 0 then
        Except.error (handleSearchTextMatchIssues r.spans rawText
          (buildFlatRawTextHelpers rawText).flatRawText
          (buildFlatRawTextHelpers rawText).rawToFlatRaw
          Msg.noMatchFound PName.anchorBlockEndMarker)
      else
        Except.ok
          (some (validEndSpans.getD (validEndSpans.length - 1) default))

/-- Anchor resolution within the `[blockStart, blockEnd)` raw range,
demanding exactly one exact match (shared logic of insert and move). -/
def resolveAnchorInBlock (rawText : List Char) (anchorText : List Char)
    (blockStartSpan blockEndSpan : Option MatchSpan) :
    Except OpResult MatchSpan :=
  let r := runMatcher rawText anchorText
  let blockStartOffset :=
    match blockStartSpan with
    | some b => b.rawStart
    | none => 0
  let blockEndOffset :=
    match blockEndSpan with
    | some b => b.rawEndExclusive
    | none => rawText.length
  let inBlock := r.spans.filter (fun s =>
    blockStartOffset ≤ s.rawStart ∧ s.rawEndExclusive ≤ blockEndOffset)
  if ¬(r.isExactMatch = true) ∨ inBlock.length = 0 then
    Except.error (handleSearchTextMatchIssues inBlock rawText
      (buildFlatRawTextHelpers rawText).flatRawText
      (buildFlatRawTextHelpers rawText).rawToFlatRaw
      Msg.noMatchFound PName.anchorText)
  else if 1 < inBlock.length then
    Except.error (handleSearchTextMatchIssues inBlock rawText
      (buildFlatRawTextHelpers rawText).flatRawText
      (buildFlatRawTextHelpers rawText).rawToFlatRaw
      Msg.multipleMatches PName.anchorText)
  else Except.ok (inBlock.getD 0 default)

/-- Parameters of `insert_text` after schema validation. -/
structure InsertParams where
  textToBeInserted : List Char
  anchorText : List Char
  posBefore : Bool
  anchorBlockStartMarker : Option (List Char)
  anchorBlockEndMarker : Option (List Char)
  addNewLine : Bool
  deriving DecidableEq

/-- `insertTextImpl` of the source after the file read, as a pure function
from the file content to the response and the resulting content. -/
def insertTextImpl (fileValidation : Option Msg) (rawText : List Char)
    (p : InsertParams) : OpResult × List Char :=
  match fileValidation with
  | some m => ({ success := false, message := m, suggestions := none }, rawText)
  | none =>
    match resolveBlockStart rawText (truthy p.anchorBlockStartMarker) with
    | Except.error res => (res, rawText)
    | Except.ok blockStartSpan =>
      match resolveBlockEndInsert rawText blockStartSpan
          (truthy p.anchorBlockEndMarker) with
      | Except.error res => (res, rawText)
      | Except.ok blockEndSpan =>
        match resolveAnchorInBlock rawText p.anchorText blockStartSpan
            blockEndSpan with
        | Except.error res => (res, rawText)
        | Except.ok span =>
          let insertionPoint :=
            if p.posBefore then span.rawStart else span.rawEndExclusive
          let lineEnding := detectLineEnding rawText
          let textToInsert :=
            if p.addNewLine then
              if p.posBefore then p.textToBeInserted ++ lineEnding
              else lineEnding ++ p.textToBeInserted
            else p.textToBeInserted
          ({ success := true, message := Msg.successInserted,
             suggestions := none },
            replaceBySpan rawText insertionPoint insertionPoint textToInsert)

/-- `isPosLineBoundary` of the source (out-of-range access reads
`undefined`, which is neither `\n` nor `\r`). -/
def isPosLineBoundary (chars : List Char) (pos : Nat) : Bool :=
  chars.getD pos 'a' = '\n' ∨ chars.getD pos 'a' = '\r'

/-- `findLineBoundaryToLeft`: walk left over non-newline whitespace; stop
at index 0 or just right of a `\n`/`\r`; `-1` when a non-whitespace scalar
intervenes. -/
def findLineBoundaryToLeft (chars : List Char) : Nat → Int
  | 0 => 0
  | s + 1 =>
    if isPosLineBoundary chars s then ((s + 1 : Nat) : Int)
    else if isWs (chars.getD s 'a') then findLineBoundaryToLeft chars s
    else -1

/-- `findLineBoundaryToRight`, symmetric to the left version (remaining
distance recursion; at `e = length` the boundary is reached). -/
def flbRightGo (chars : List Char) : Nat → Nat → Int
  | e, 0 => (e : Int)
  | e, rem + 1 =>
    if e < chars.length then
      if isPosLineBoundary chars e then (e : Int)
      else if isWs (chars.getD e 'a') then flbRightGo chars (e + 1) rem
      else -1
    else (e : Int)

/-- Entry point of `findLineBoundaryToRight`. -/
def findLineBoundaryToRight (chars : List Char) (e : Nat) : Int :=
  flbRightGo chars e (chars.length - e)

/-- `expandEndLineBoundaryToIncludeTrailingNewLine` of the source
(remaining-distance recursion). -/
def expandTrailGo (chars : List Char) : Nat → Nat → Nat
  | pos, 0 => pos
  | pos, rem + 1 =>
    if pos < chars.length then
      if chars.getD pos 'a' = '\r' ∨ chars.getD pos 'a' = '\n' then
        expandTrailGo chars (pos + 1) rem
      else pos
    else pos

/-- Entry point of the trailing-newline expansion. -/
def expandTrailingNewLine (chars : List Char) (pos : Nat) : Nat :=
  expandTrailGo chars pos (chars.length - pos)

/-- `isLineBoundaryMove` of the source: the moved text sits on whole
lines and the relevant side of the anchor is at a line boundary. -/
def isLineBoundaryMove (chars : List Char) (moveSpan anchorSpan : MatchSpan)
    (posBefore : Bool) : Bool :=
  0 ≤ findLineBoundaryToLeft chars moveSpan.rawStart ∧
  0 ≤ findLineBoundaryToRight chars moveSpan.rawEndExclusive ∧
  (if posBefore then 0 ≤ findLineBoundaryToLeft chars anchorSpan.rawStart
   else 0 ≤ findLineBoundaryToRight chars anchorSpan.rawEndExclusive)

/-- The deletion span `moveTextImpl` computes (line-boundary mode extends
to the line edges and swallows the trailing newline run). -/
def moveDeletionSpan (chars : List Char) (moveSpan anchorSpan : MatchSpan)
    (posBefore : Bool) : Nat × Nat :=
  if isLineBoundaryMove chars moveSpan anchorSpan posBefore then
    ((findLineBoundaryToLeft chars moveSpan.rawStart).toNat,
      expandTrailingNewLine chars
        (findLineBoundaryToRight chars moveSpan.rawEndExclusive).toNat)
  else (moveSpan.rawStart, moveSpan.rawEndExclusive)

/-- The insertion point `moveTextImpl` computes. -/
def moveInsertionPoint (chars : List Char) (moveSpan anchorSpan : MatchSpan)
    (posBefore : Bool) : Nat :=
  if posBefore then
    if isLineBoundaryMove chars moveSpan anchorSpan posBefore then
      (findLineBoundaryToLeft chars anchorSpan.rawStart).toNat
    else anchorSpan.rawStart
  else
    if isLineBoundaryMove chars moveSpan anchorSpan posBefore then
      (findLineBoundaryToRight chars anchorSpan.rawEndExclusive).toNat
    else anchorSpan.rawEndExclusive

/-- Parameters of `move_text` after schema validation. -/
structure MoveParams where
  textToBeMoved : List Char
  anchorText : List Char
  posBefore : Bool
  anchorBlockStartMarker : Option (List Char)
  anchorBlockEndMarker : Option (List Char)
  deriving DecidableEq

/-- `moveTextImpl` of the source after the file read, as a pure function
from the file content to the response and the resulting content. -/
def moveTextImpl (fileValidation : Option Msg) (rawText : List Char)
    (p : MoveParams) : OpResult × List Char :=
  match fileValidation with
  | some m => ({ success := false, message := m, suggestions := none }, rawText)
  | none =>
    let lineEnding := detectLineEnding rawText
    let mm := runMatcher rawText p.textToBeMoved
    if ¬(mm.isExactMatch = true) ∨ mm.spans.length = 0 then
      (handleSearchTextMatchIssues mm.spans rawText
        (buildFlatRawTextHelpers rawText).flatRawText
        (buildFlatRawTextHelpers rawText).rawToFlatRaw
        Msg.noMatchFound PName.textToBeMoved, rawText)
    else if 1 < mm.spans.length then
      (handleSearchTextMatchIssues mm.spans rawText
        (buildFlatRawTextHelpers rawText).flatRawText
        (buildFlatRawTextHelpers rawText).rawToFlatRaw
        Msg.multipleMatches PName.textToBeMoved, rawText)
    else
      let moveSpan := mm.spans.getD 0 default
      match resolveBlockStart rawText (truthy p.anchorBlockStartMarker) with
      | Except.error res => (res, rawText)
      | Except.ok blockStartSpan =>
        match resolveBlockEndMove rawText blockStartSpan
            (truthy p.anchorBlockEndMarker) with
        | Except.error res => (res, rawText)
        | Except.ok blockEndSpan =>
          match resolveAnchorInBlock rawText p.anchorText blockStartSpan
              blockEndSpan with
          | Except.error res => (res, rawText)
          | Except.ok anchorSpan =>
            let del := moveDeletionSpan rawText moveSpan anchorSpan p.posBefore
            let insertionPoint :=
              moveInsertionPoint rawText moveSpan anchorSpan p.posBefore
            if del.1 < insertionPoint ∧ insertionPoint < del.2 then
              ({ success := false, message := Msg.overlapError,
                 suggestions := none }, rawText)
            else
              let textToMoveEnd :=
                if isLineBoundaryMove rawText moveSpan anchorSpan p.posBefore
                then (findLineBoundaryToRight rawText
                  moveSpan.rawEndExclusive).toNat
                else moveSpan.rawEndExclusive
              let textToMove0 := sliceBySpan rawText del.1 textToMoveEnd
              let textToMove :=
                if isLineBoundaryMove rawText moveSpan anchorSpan p.posBefore
                then
                  if p.posBefore then textToMove0 ++ lineEnding
                  else lineEnding ++ textToMove0
                else textToMove0
              let afterDelete := rawText.take del.1 ++ rawText.drop del.2
              let adjustedInsert :=
                if insertionPoint ≤ del.1 then insertionPoint
                else insertionPoint - (del.2 - del.1)
              ({ success := true, message := Msg.successMoved,
                 suggestions := none },
                afterDelete.take adjustedInsert ++ textToMove ++
                  afterDelete.drop adjustedInsert)

end FileTools

namespace FileTools

theorem buildFlatAux_flat_eq (l : List Char) (i j : Nat) :
    (buildFlatAux l i j).flatRawText = l.filter (fun c => !isWs c) := by
  induction l generalizing i j with
  | nil => rfl
  | cons c rest ih =>
    by_cases h : isWs c <;>
      simp [buildFlatAux, h, List.filter_cons, ih]

theorem buildFlatAux_fr_lb (l : List Char) (i j : Nat) :
    ∀ x ∈ (buildFlatAux l i j).flatRawToRaw, i ≤ x := by
  induction l generalizing i j with
  | nil => simp [buildFlatAux]
  | cons c rest ih =>
    by_cases h : isWs c
    · simpa [buildFlatAux, h] using fun x hx =>
        Nat.le_of_succ_le (ih (i + 1) j x hx)
    · simp only [buildFlatAux, h, if_false, Bool.false_eq_true, List.mem_cons]
      rintro x (rfl | hx)
      · exact Nat.le_refl _
      · exact Nat.le_of_succ_le (ih (i + 1) (j + 1) x hx)

theorem buildFlatAux_fr_chain (l : List Char) (i j : Nat) :
    List.Chain' (· < ·) (buildFlatAux l i j).flatRawToRaw := by
  induction l generalizing i j with
  | nil => simp [buildFlatAux]
  | cons c rest ih =>
    by_cases h : isWs c
    · simpa [buildFlatAux, h] using ih (i + 1) j
    · simp only [buildFlatAux, h, if_false, Bool.false_eq_true]
      refine List.chain'_cons'.mpr ⟨?_, ih (i + 1) (j + 1)⟩
      intro b hb
      have hble := buildFlatAux_fr_lb rest (i + 1) (j + 1) b
        (List.mem_of_mem_head? hb)
      omega

theorem buildFlatAux_rf_lb (l : List Char) (i j : Nat) :
    ∀ x ∈ (buildFlatAux l i j).rawToFlatRaw, j ≤ x := by
  induction l generalizing i j with
  | nil => simp [buildFlatAux]
  | cons c rest ih =>
    by_cases h : isWs c <;>
      simp only [buildFlatAux, h, if_true, if_false, Bool.false_eq_true,
        List.mem_cons] <;>
      rintro x (rfl | hx)
    · exact Nat.le_refl _
    · exact ih (i + 1) j x hx
    · exact Nat.le_refl _
    · exact Nat.le_of_succ_le (ih (i + 1) (j + 1) x hx)

theorem buildFlatAux_rf_chain (l : List Char) (i j : Nat) :
    List.Chain' (· ≤ ·) (buildFlatAux l i j).rawToFlatRaw := by
  induction l generalizing i j with
  | nil => simp [buildFlatAux]
  | cons c rest ih =>
    by_cases h : isWs c <;>
      simp only [buildFlatAux, h, if_true, if_false, Bool.false_eq_true] <;>
      refine List.chain'_cons'.mpr ⟨?_, by apply ih⟩ <;>
      intro b hb
    · exact buildFlatAux_rf_lb rest (i + 1) j b (List.mem_of_mem_head? hb)
    · exact Nat.le_of_succ_le
        (buildFlatAux_rf_lb rest (i + 1) (j + 1) b (List.mem_of_mem_head? hb))

theorem buildFlatAux_inverse (l : List Char) :
    ∀ (i j p : Nat) (c : Char), l.get? p = some c → isWs c = false →
    ∃ k, (buildFlatAux l i j).rawToFlatRaw.get? p = some (j + k) ∧
      (buildFlatAux l i j).flatRawToRaw.get? k = some (i + p) := by
  induction l with
  | nil => intro i j p c hp; simp at hp
  | cons d rest ih =>
    intro i j p c hp hw
    cases p with
    | zero =>
      simp only [List.get?_cons_zero, Option.some.injEq] at hp
      subst hp
      refine ⟨0, ?_⟩
      simp [buildFlatAux, hw]
    | succ p' =>
      simp only [List.get?_cons_succ] at hp
      by_cases hd : isWs d
      · obtain ⟨k, hk1, hk2⟩ := ih (i + 1) j p' c hp hw
        refine ⟨k, ?_, ?_⟩
        · simpa [buildFlatAux, hd] using hk1
        · have : i + 1 + p' = i + (p' + 1) := by omega
          simpa [buildFlatAux, hd, this] using hk2
      · obtain ⟨k, hk1, hk2⟩ := ih (i + 1) (j + 1) p' c hp hw
        refine ⟨k + 1, ?_, ?_⟩
        · have : j + 1 + k = j + (k + 1) := by omega
          simpa [buildFlatAux, hd, this] using hk1
        · have : i + 1 + p' = i + (p' + 1) := by omega
          simpa [buildFlatAux, hd, this] using hk2

/-- C4: for every raw scalar vector the flat-view builder produces a
strictly increasing flat-to-raw map, a non-decreasing raw-to-flat map, and
the two maps are mutual inverses on non-whitespace raw indices:
`flatRawToRaw[rawToFlatRaw[p]] = p` whenever `raw[p]` is not whitespace. -/
theorem flat_builder_invariants (raw : List Char) :
    List.Chain' (· < ·) (buildFlatRawTextHelpers raw).flatRawToRaw ∧
    List.Chain' (· ≤ ·) (buildFlatRawTextHelpers raw).rawToFlatRaw ∧
    ∀ (p : Nat) (c : Char), raw.get? p = some c → isWs c = false →
      ∃ k, (buildFlatRawTextHelpers raw).rawToFlatRaw.get? p = some k ∧
        (buildFlatRawTextHelpers raw).flatRawToRaw.get? k = some p := by
  refine ⟨buildFlatAux_fr_chain raw 0 0, buildFlatAux_rf_chain raw 0 0, ?_⟩
  intro p c hp hw
  obtain ⟨k, hk1, hk2⟩ := buildFlatAux_inverse raw 0 0 p c hp hw
  exact ⟨k, by simpa using hk1, by simpa using hk2⟩

/-- Witness for `flat_builder_invariants` at the concrete raw text
`" a b"`: raw index 1 holds the non-whitespace scalar `a` and the maps
invert each other there. -/
theorem flat_builder_invariants_witness :
    ∃ k, (buildFlatRawTextHelpers (" a b".toList)).rawToFlatRaw.get? 1 =
        some k ∧
      (buildFlatRawTextHelpers (" a b".toList)).flatRawToRaw.get? k =
        some 1 :=
  (flat_builder_invariants (" a b".toList)).2.2 1 'a' (by decide) (by decide)


theorem find?_eq_head?_filter {α : Type} (p : α → Bool) (l : List α) :
    l.find? p = (l.filter p).head? := by
  induction l with
  | nil => rfl
  | cons a t ih =>
    by_cases h : p a
    · rw [List.find?_cons_of_pos _ h, List.filter_cons_of_pos h]; rfl
    · rw [List.find?_cons_of_neg _ h, List.filter_cons_of_neg h, ih]

theorem occList_pairwise (T P : List Char) :
    (occList T P).Pairwise (· < ·) :=
  (List.pairwise_lt_range T.length).filter _

theorem occList_lt_length {T P : List Char} {i : Nat}
    (h : i ∈ occList T P) : i < T.length := by
  have := (List.mem_filter.mp h).1
  simpa using this

theorem occList_occurs {T P : List Char} {i : Nat}
    (h : i ∈ occList T P) : occursAt T P i = true :=
  (List.mem_filter.mp h).2

theorem firstOccFrom_eq (T P : List Char) (s : Nat) :
    firstOccFrom T P s =
      ((occList T P).filter (fun i => decide (s ≤ i))).head? := by
  unfold firstOccFrom occList
  rw [find?_eq_head?_filter, List.filter_filter]

theorem filter_ge_tail (l : List Nat) (hl : l.Pairwise (· < ·)) :
    ∀ (s idx : Nat) (rest : List Nat),
    l.filter (fun i => decide (s ≤ i)) = idx :: rest →
    rest = l.filter (fun i => decide (idx + 1 ≤ i)) := by
  induction l with
  | nil => intro s idx rest h; simp at h
  | cons a t ih =>
    intro s idx rest h
    obtain ⟨ha, ht⟩ := List.pairwise_cons.mp hl
    by_cases hsa : s ≤ a
    · rw [List.filter_cons_of_pos (by simpa using hsa)] at h
      injection h with h1 h2
      subst h1
      subst h2
      have h3 : t.filter (fun i => decide (s ≤ i)) = t :=
        List.filter_eq_self.mpr fun x hx => by
          have hax := ha x hx
          simp
          omega
      have h4 : t.filter (fun i => decide (a + 1 ≤ i)) = t :=
        List.filter_eq_self.mpr fun x hx => by
          have hax := ha x hx
          simp
          omega
      have hna : ¬ (a + 1 ≤ a) := by omega
      rw [h3]
      simp [List.filter_cons, hna, h4]
    · rw [List.filter_cons_of_neg (by simpa using hsa)] at h
      have hrest := ih ht s idx rest h
      have hidx : idx ∈ t := by
        have hidx0 : idx ∈ t.filter (fun i => decide (s ≤ i)) := by
          rw [h]; exact List.mem_cons_self _ _
        exact (List.mem_filter.mp hidx0).1
      have hna : ¬ (idx + 1 ≤ a) := by
        have := ha idx hidx
        omega
      simpa [List.filter_cons, hna] using hrest

theorem exactLoop_eq (T P : List Char) :
    ∀ (b s : Nat), exactLoop T P s b =
      ((occList T P).filter (fun i => decide (s ≤ i))).take b := by
  intro b
  induction b with
  | zero => intro s; simp [exactLoop]
  | succ b ih =>
    intro s
    show (if s < T.length then
        match firstOccFrom T P s with
        | none => []
        | some idx => idx :: exactLoop T P (idx + 1) b
      else []) = _
    by_cases hs : s < T.length
    · rw [if_pos hs, firstOccFrom_eq]
      cases hF : (occList T P).filter (fun i => decide (s ≤ i)) with
      | nil => simp [hF]
      | cons idx rest =>
        have hrest := filter_ge_tail (occList T P) (occList_pairwise T P)
          s idx rest hF
        simp only [hF, List.head?_cons, List.take_succ_cons, ih (idx + 1),
          ← hrest]
    · rw [if_neg hs]
      have hnil : (occList T P).filter (fun i => decide (s ≤ i)) = [] :=
        List.filter_eq_nil_iff.mpr fun a ha => by
          have := occList_lt_length ha
          simp
          omega
      rw [hnil]
      simp

theorem exactSpans_eq (T P : List Char) (fr : List Nat) (rawLen : Nat) :
    exactSpans T P fr rawLen 3 =
      ((occList T P).take 3).map (exactSpanOf P.length fr rawLen) := by
  unfold exactSpans
  rw [exactLoop_eq]
  congr 2
  exact List.filter_eq_self.mpr fun a _ => by simp

theorem runMatcher_of_occ (rawText searchText : List Char)
    (hP : (normalizeText searchText).length ≠ 0)
    (hocc : occList (buildFlatRawTextHelpers rawText).flatRawText
      (normalizeText searchText) ≠ []) :
    runMatcher rawText searchText =
      ⟨((occList (buildFlatRawTextHelpers rawText).flatRawText
          (normalizeText searchText)).take 3).map
        (exactSpanOf (normalizeText searchText).length
          (buildFlatRawTextHelpers rawText).flatRawToRaw rawText.length),
        true⟩ := by
  have hTlen :
      ¬ (buildFlatRawTextHelpers rawText).flatRawText.length = 0 := by
    obtain ⟨i, hi⟩ := List.exists_mem_of_ne_nil _ hocc
    have := occList_lt_length hi
    omega
  have hpos :
      0 < (occList (buildFlatRawTextHelpers rawText).flatRawText
        (normalizeText searchText)).length :=
    List.length_pos.mpr hocc
  unfold runMatcher findMatchSpans
  rw [if_neg hTlen, if_neg hP, exactSpans_eq]
  have hlen :
      ¬ (((occList (buildFlatRawTextHelpers rawText).flatRawText
          (normalizeText searchText)).take 3).map
        (exactSpanOf (normalizeText searchText).length
          (buildFlatRawTextHelpers rawText).flatRawToRaw
          rawText.length)).length = 0 := by
    simp only [List.length_map, List.length_take]
    omega
  rw [if_pos hlen]
  have hsorted : List.Sorted (fun a b : MatchSpan => a.flatStart ≤ b.flatStart)
      (((occList (buildFlatRawTextHelpers rawText).flatRawText
          (normalizeText searchText)).take 3).map
        (exactSpanOf (normalizeText searchText).length
          (buildFlatRawTextHelpers rawText).flatRawToRaw rawText.length)) := by
    rw [List.Sorted, List.pairwise_map]
    exact ((occList_pairwise _ _).sublist (List.take_sublist 3 _)).imp
      fun h => Nat.le_of_lt h
  rw [hsorted.insertionSort_eq]

theorem runMatcher_not_exact (rawText searchText : List Char)
    (hocc : occList (buildFlatRawTextHelpers rawText).flatRawText
      (normalizeText searchText) = []) :
    (runMatcher rawText searchText).isExactMatch = false := by
  unfold runMatcher findMatchSpans
  by_cases hTlen : (buildFlatRawTextHelpers rawText).flatRawText.length = 0
  · rw [if_pos hTlen]
  · rw [if_neg hTlen]
    by_cases hP : (normalizeText searchText).length = 0
    · rw [if_pos hP]
    · rw [if_neg hP, exactSpans_eq, hocc]
      simp

/-- C1: for every raw text and search text with non-empty stripped form,
the matcher's exact phase returns precisely the first three occurrence
positions of the stripped search text in the flat view (the `+1` re-scan
makes the loop enumerate every occurrence in increasing order, overlapping
ones included, and the cap at 3 keeps the three leftmost); the result is
flagged exact exactly when an occurrence exists, the spans are sorted
strictly by `flatStart` with at most three entries, and every returned
span's flat slice `[flatStart, flatEndExclusive)` equals the stripped
search text. -/
theorem exact_phase_characterization (rawText searchText : List Char)
    (hne : normalizeText searchText ≠ []) :
    ((runMatcher rawText searchText).isExactMatch = true ↔
      occList (buildFlatRawTextHelpers rawText).flatRawText
        (normalizeText searchText) ≠ []) ∧
    ((runMatcher rawText searchText).isExactMatch = true →
      (runMatcher rawText searchText).spans.map MatchSpan.flatStart =
        (occList (buildFlatRawTextHelpers rawText).flatRawText
          (normalizeText searchText)).take 3 ∧
      List.Chain' (· < ·)
        ((runMatcher rawText searchText).spans.map MatchSpan.flatStart) ∧
      (runMatcher rawText searchText).spans.length ≤ 3 ∧
      ∀ sp ∈ (runMatcher rawText searchText).spans,
        sp.flatEndExclusive = sp.flatStart +
          (normalizeText searchText).length ∧
        ((buildFlatRawTextHelpers rawText).flatRawText.drop
            sp.flatStart).take (normalizeText searchText).length =
          normalizeText searchText) := by
  have hPlen : (normalizeText searchText).length ≠ 0 := fun h0 =>
    hne (List.length_eq_zero.mp h0)
  have hiff : (runMatcher rawText searchText).isExactMatch = true ↔
      occList (buildFlatRawTextHelpers rawText).flatRawText
        (normalizeText searchText) ≠ [] := by
    constructor
    · intro hex
      by_contra hocc
      rw [runMatcher_not_exact rawText searchText hocc] at hex
      exact Bool.false_ne_true hex
    · intro hocc
      rw [runMatcher_of_occ rawText searchText hPlen hocc]
  refine ⟨hiff, fun hex => ?_⟩
  have hocc := hiff.mp hex
  rw [runMatcher_of_occ rawText searchText hPlen hocc]
  have hmapid : ∀ l : List Nat,
      (l.map (exactSpanOf (normalizeText searchText).length
        (buildFlatRawTextHelpers rawText).flatRawToRaw
        rawText.length)).map MatchSpan.flatStart = l := by
    intro l
    rw [List.map_map]
    exact List.map_id'' (fun x => rfl) _
  refine ⟨hmapid _, ?_, ?_, ?_⟩
  · rw [hmapid _]
    exact List.chain'_iff_pairwise.mpr
      ((occList_pairwise _ _).sublist (List.take_sublist 3 _))
  · simp only [List.length_map, List.length_take]
    omega
  · intro sp hsp
    obtain ⟨idx, hidx, rfl⟩ := List.mem_map.mp hsp
    have hidx2 := List.mem_of_mem_take hidx
    have hO := occList_occurs hidx2
    simp only [occursAt, Bool.and_eq_true, decide_eq_true_eq] at hO
    exact ⟨rfl, hO.2⟩

/-- Witness for `exact_phase_characterization` at raw text `"ab ab"` and
search text `"ab"`: an exact match is flagged and the exact phase returns
the flat occurrence positions `[0, 2]`. -/
theorem exact_phase_characterization_witness :
    (runMatcher ("ab ab".toList) ("ab".toList)).spans.map
        MatchSpan.flatStart =
      (occList (buildFlatRawTextHelpers ("ab ab".toList)).flatRawText
        (normalizeText ("ab".toList))).take 3 :=
  ((exact_phase_characterization ("ab ab".toList) ("ab".toList)
    (by decide)).2 (by decide)).1

set_option maxRecDepth 8000 in
/-- C7: at stripped length 150 the code returns 67 — the IEEE-754 double
chain rounds `150 * percent` to just above 66 — although the formula the
code's comment states (scale from 40% to 80%) gives exactly
`⌈150 * 0.44⌉ = 66`. -/
theorem computeMinMatchLen_at_150 :
    computeMinMatchLen 150 = 67 ∧
    ⌈(150 : ℚ) * (2/5 + 2/5 * min ((150 : ℚ)/1500) 1)⌉ = (66 : ℤ) := by
  constructor
  · decide
  · norm_num [min_def]

theorem midScanAux_mem (nodes : List SAMNode) (m minLen : Nat) :
    ∀ (T : List Char) (i st ln : Nat) (r : RawMatch),
    r ∈ midScanAux nodes m minLen T i st ln ↔
      ∃ k, k < T.length ∧
        minLen ≤ ((samScanStates nodes T st ln).getD k (0, 0)).2 ∧
        ¬((nodes.getD ((samScanStates nodes T st ln).getD k (0, 0)).1
            default).minEnd =
          some ((((samScanStates nodes T st ln).getD k (0, 0)).2 : Int) - 1)) ∧
        ¬((nodes.getD ((samScanStates nodes T st ln).getD k (0, 0)).1
            default).maxEnd = some ((m : Int) - 1)) ∧
        r = RawMatch.mk MatchType.midMatch
          (i + k + 1 - ((samScanStates nodes T st ln).getD k (0, 0)).2)
          (i + k + 1) ((samScanStates nodes T st ln).getD k (0, 0)).2 := by
  intro T
  induction T with
  | nil =>
    intro i st ln r
    simp [midScanAux]
  | cons c rest ih =>
    intro i st ln r
    show r ∈ (if minLen ≤ (samStep nodes c st ln).2 ∧ _ ∧ _ then _ else []) ++
        midScanAux nodes m minLen rest (i + 1) (samStep nodes c st ln).1
          (samStep nodes c st ln).2 ↔ _
    rw [List.mem_append, ih (i + 1) (samStep nodes c st ln).1
      (samStep nodes c st ln).2]
    constructor
    · rintro (hem | ⟨k, hk, h1, h2, h3, h4⟩)
      · by_cases hcond : minLen ≤ (samStep nodes c st ln).2 ∧
            ¬((nodes.getD (samStep nodes c st ln).1 default).minEnd =
              some (((samStep nodes c st ln).2 : Int) - 1)) ∧
            ¬((nodes.getD (samStep nodes c st ln).1 default).maxEnd =
              some ((m : Int) - 1))
        · rw [if_pos hcond, List.mem_singleton] at hem
          refine ⟨0, by simp, ?_⟩
          simp only [samScanStates, List.getD_cons_zero]
          exact ⟨hcond.1, hcond.2.1, hcond.2.2, by simpa using hem⟩
        · rw [if_neg hcond] at hem
          exact absurd hem (List.not_mem_nil r)
      · refine ⟨k + 1, by simpa using hk, ?_⟩
        simp only [samScanStates, List.getD_cons_succ]
        refine ⟨h1, h2, h3, ?_⟩
        have harith : i + 1 + k + 1 = i + (k + 1) + 1 := by omega
        rw [← harith]
        exact h4
    · rintro ⟨k, hk, h1, h2, h3, h4⟩
      cases k with
      | zero =>
        left
        simp only [samScanStates, List.getD_cons_zero] at h1 h2 h3 h4
        rw [if_pos ⟨h1, h2, h3⟩]
        simp only [List.mem_singleton]
        simpa using h4
      | succ k =>
        right
        simp only [samScanStates, List.getD_cons_succ] at h1 h2 h3 h4
        refine ⟨k, by simpa using hk, h1, h2, h3, ?_⟩
        have harith : i + 1 + k + 1 = i + (k + 1) + 1 := by omega
        rw [harith]
        exact h4

/-- C5: during the streaming suffix-automaton scan over the flat text, a
`mid` raw match is emitted at a position exactly when the current match
length has reached `minMatchLen` and the current state is neither a
prefix occurrence (`minEnd = len - 1`) nor a suffix occurrence
(`maxEnd = m - 1`); the emitted match covers the last `len` flat
positions. -/
theorem mid_emission_characterization (P T : List Char) (r : RawMatch) :
    r ∈ midStage (SuffixAutomaton.build P).nodes T P.length
        (computeMinMatchLen P.length) ↔
      ∃ k, k < T.length ∧
        computeMinMatchLen P.length ≤
          ((samScanStates (SuffixAutomaton.build P).nodes T 0 0).getD
            k (0, 0)).2 ∧
        ¬(((SuffixAutomaton.build P).nodes.getD
            ((samScanStates (SuffixAutomaton.build P).nodes T 0 0).getD
              k (0, 0)).1 default).minEnd =
          some ((((samScanStates (SuffixAutomaton.build P).nodes T 0 0).getD
            k (0, 0)).2 : Int) - 1)) ∧
        ¬(((SuffixAutomaton.build P).nodes.getD
            ((samScanStates (SuffixAutomaton.build P).nodes T 0 0).getD
              k (0, 0)).1 default).maxEnd =
          some ((P.length : Int) - 1)) ∧
        r = RawMatch.mk MatchType.midMatch
          (k + 1 - ((samScanStates (SuffixAutomaton.build P).nodes T 0 0).getD
            k (0, 0)).2)
          (k + 1)
          ((samScanStates (SuffixAutomaton.build P).nodes T 0 0).getD
            k (0, 0)).2 := by
  have h := midScanAux_mem (SuffixAutomaton.build P).nodes P.length
    (computeMinMatchLen P.length) T 0 0 0 r
  simpa using h

/-- C2: a failed request leaves the content unchanged — the single write
happens only on the success path, after all in-memory computation, for
replace/delete (`searchTextAndReplace`), insert and move alike; this
covers validation failures, identical-text, no-match, multiple-matches,
overlap and the caught null-dereference exception of insert. -/
theorem failed_ops_leave_content (fv : Option Msg) (rawText : List Char) :
    (∀ (searchText replacementText : List Char) (allM vr : Bool),
      (searchTextAndReplace fv rawText searchText replacementText
        allM vr).1.success = false →
      (searchTextAndReplace fv rawText searchText replacementText
        allM vr).2 = rawText) ∧
    (∀ p : InsertParams,
      (insertTextImpl fv rawText p).1.success = false →
      (insertTextImpl fv rawText p).2 = rawText) ∧
    (∀ p : MoveParams,
      (moveTextImpl fv rawText p).1.success = false →
      (moveTextImpl fv rawText p).2 = rawText) := by
  refine ⟨?_, ?_, ?_⟩
  · intro searchText replacementText allM vr
    unfold searchTextAndReplace
    cases fv with
    | some m => intro _; rfl
    | none =>
      dsimp only
      split
      · intro _; rfl
      · split
        · intro _; rfl
        · split
          · intro _; rfl
          · intro h; simp at h
  · intro p
    unfold insertTextImpl
    cases fv with
    | some m => intro _; rfl
    | none =>
      dsimp only
      split
      · intro _; rfl
      · split
        · intro _; rfl
        · split
          · intro _; rfl
          · intro h; simp at h
  · intro p
    unfold moveTextImpl
    cases fv with
    | some m => intro _; rfl
    | none =>
      dsimp only
      split
      · intro _; rfl
      · split
        · intro _; rfl
        · split
          · intro _; rfl
          · split
            · intro _; rfl
            · split
              · intro _; rfl
              · split
                · intro _; rfl
                · intro h; simp at h

/-- Witness for `failed_ops_leave_content`: the identical-text failure of
replace leaves `"ab"` untouched. -/
theorem failed_ops_leave_content_witness :
    (searchTextAndReplace none ("ab".toList) ("ab".toList) ("ab".toList)
      false true).2 = "ab".toList :=
  (failed_ops_leave_content none ("ab".toList)).1 ("ab".toList)
    ("ab".toList) false true (by decide)

/-- C3: when the flat view holds four or more exact occurrences, a
replace-all splices only the three occurrences the capped exact phase
found — in flat-start order, via descending-order splices — and reports a
count of 3; occurrences beyond the third are untouched. -/
theorem replace_all_caps_at_three (rawText searchText replacementText :
      List Char)
    (hne : normalizeText searchText ≠ [])
    (hid : ¬(searchText = replacementText))
    (hocc : 4 ≤ (occList (buildFlatRawTextHelpers rawText).flatRawText
      (normalizeText searchText)).length) :
    (searchTextAndReplace none rawText searchText replacementText
        true true).1 =
      OpResult.mk true
        (Msg.successReplaced (decide (replacementText ≠ [])) 3) none ∧
    (searchTextAndReplace none rawText searchText replacementText
        true true).2 =
      ((((occList (buildFlatRawTextHelpers rawText).flatRawText
            (normalizeText searchText)).take 3).map
          (exactSpanOf (normalizeText searchText).length
            (buildFlatRawTextHelpers rawText).flatRawToRaw
            rawText.length)).reverse).foldl
        (fun cs sp => replaceBySpan cs sp.rawStart sp.rawEndExclusive
          replacementText) rawText := by
  have hP : (normalizeText searchText).length ≠ 0 := fun h0 =>
    hne (List.length_eq_zero.mp h0)
  have hocc' : occList (buildFlatRawTextHelpers rawText).flatRawText
      (normalizeText searchText) ≠ [] := by
    intro h
    rw [h] at hocc
    simp at hocc
  have hrm := runMatcher_of_occ rawText searchText hP hocc'
  have hlen3 : (((occList (buildFlatRawTextHelpers rawText).flatRawText
      (normalizeText searchText)).take 3).map
        (exactSpanOf (normalizeText searchText).length
          (buildFlatRawTextHelpers rawText).flatRawToRaw
          rawText.length)).length = 3 := by
    simp only [List.length_map, List.length_take]
    omega
  unfold searchTextAndReplace
  dsimp only
  rw [if_neg (fun hcon => hid hcon.2), hrm]
  rw [if_neg (by simp [hlen3]; exact hocc')]
  rw [if_neg (by simp)]
  refine ⟨?_, rfl⟩
  simp only [hlen3]

/-- Witness for `replace_all_caps_at_three`: `"ab ab ab ab"` holds four
exact occurrences of `"ab"`; replace-all reports three replacements. -/
theorem replace_all_caps_at_three_witness :
    (searchTextAndReplace none ("ab ab ab ab".toList) ("ab".toList)
        ("X".toList) true true).1 =
      OpResult.mk true (Msg.successReplaced (decide ("X".toList ≠ [])) 3)
        none :=
  (replace_all_caps_at_three ("ab ab ab ab".toList) ("ab".toList)
    ("X".toList) (by decide) (by decide) (by decide)).1

/-- C9: when the moved text and the anchor each resolve to exactly one
exact match and the computed insertion point falls strictly inside the
computed deletion span, `moveTextImpl` fails with the overlap error,
attaches no suggestions, and leaves the content unchanged. -/
theorem move_overlap_rejection (rawText : List Char) (p : MoveParams)
    (moveSpan anchorSpan : MatchSpan) (bs be : Option MatchSpan)
    (hm : runMatcher rawText p.textToBeMoved =
      MatchResult.mk [moveSpan] true)
    (hbs : resolveBlockStart rawText (truthy p.anchorBlockStartMarker) =
      Except.ok bs)
    (hbe : resolveBlockEndMove rawText bs (truthy p.anchorBlockEndMarker) =
      Except.ok be)
    (ha : resolveAnchorInBlock rawText p.anchorText bs be =
      Except.ok anchorSpan)
    (hlt1 : (moveDeletionSpan rawText moveSpan anchorSpan p.posBefore).1 <
      moveInsertionPoint rawText moveSpan anchorSpan p.posBefore)
    (hlt2 : moveInsertionPoint rawText moveSpan anchorSpan p.posBefore <
      (moveDeletionSpan rawText moveSpan anchorSpan p.posBefore).2) :
    moveTextImpl none rawText p =
      (OpResult.mk false Msg.overlapError none, rawText) := by
  unfold moveTextImpl
  dsimp only
  rw [hm]
  rw [if_neg (by simp)]
  rw [if_neg (by simp)]
  dsimp only [List.getD_cons_zero]
  rw [hbs]
  dsimp only
  rw [hbe]
  dsimp only
  rw [ha]
  dsimp only
  rw [if_pos ⟨hlt1, hlt2⟩]

/-- Witness for `move_overlap_rejection`: in `"xaybz"`, moving `"ayb"`
after the anchor `"y"` puts the insertion point strictly inside the
deletion span. -/
theorem move_overlap_rejection_witness :
    moveTextImpl none ("xaybz".toList)
        (MoveParams.mk ("ayb".toList) ("y".toList) false none none) =
      (OpResult.mk false Msg.overlapError none, "xaybz".toList) :=
  move_overlap_rejection ("xaybz".toList)
    (MoveParams.mk ("ayb".toList) ("y".toList) false none none)
    (MatchSpan.mk 1 4 1 4) (MatchSpan.mk 2 3 2 3) none none
    (by decide) rfl rfl rfl (by decide) (by decide)

/-- C10 (amended): with an end marker supplied but no (truthy) start
marker, `insertTextImpl` never succeeds and never writes: when the
end-marker search yields any spans the unguarded
`blockStartSpan.rawEndExclusive` dereference throws and the caught
exception surfaces as the unexpected-error failure, while an empty span
list short-circuits into the no-match failure for the end marker before
the dereference.  `moveTextImpl`, whose filter guards the missing block
start, can succeed under the same parameter shape (concrete instance in
the last conjunct). -/
theorem insert_end_marker_without_start (rawText : List Char)
    (p : InsertParams) (em : List Char)
    (hsm : truthy p.anchorBlockStartMarker = none)
    (hem : truthy p.anchorBlockEndMarker = some em) :
    ((insertTextImpl none rawText p).1.success = false ∧
      (insertTextImpl none rawText p).2 = rawText ∧
      ((runMatcher rawText em).spans = [] →
        (insertTextImpl none rawText p).1.message =
          Msg.noMatchFound PName.anchorBlockEndMarker) ∧
      ((runMatcher rawText em).spans ≠ [] →
        (insertTextImpl none rawText p).1.message = Msg.unexpectedError)) ∧
    (moveTextImpl none ("x y z".toList)
        (MoveParams.mk ("x".toList) ("y".toList) false none
          (some ("z".toList)))).1.success = true := by
  refine ⟨?_, by decide⟩
  have hres : insertTextImpl none rawText p =
      (match (runMatcher rawText em).spans with
       | [] => (handleSearchTextMatchIssues (runMatcher rawText em).spans
           rawText (buildFlatRawTextHelpers rawText).flatRawText
           (buildFlatRawTextHelpers rawText).rawToFlatRaw
           Msg.noMatchFound PName.anchorBlockEndMarker, rawText)
       | _ :: _ => (OpResult.mk false Msg.unexpectedError none, rawText)) := by
    unfold insertTextImpl
    dsimp only
    rw [show resolveBlockStart rawText (truthy p.anchorBlockStartMarker) =
      Except.ok none by rw [hsm]; rfl]
    dsimp only
    unfold resolveBlockEndInsert
    rw [hem]
    dsimp only
    cases hsp : (runMatcher rawText em).spans with
    | nil => rfl
    | cons h t => rfl
  cases hsp : (runMatcher rawText em).spans with
  | nil =>
    rw [hres, hsp]
    exact ⟨rfl, rfl, fun _ => rfl, fun hne => absurd rfl hne⟩
  | cons h t =>
    rw [hres, hsp]
    refine ⟨rfl, rfl, fun habs => by simp at habs, fun _ => rfl⟩

/-- Counterexample to C10 as stated: inserting into `"ab"` with end
marker `"zq"` (no start marker) yields no spans at all, so the failure
message is the no-match error for the end marker, not the unexpected-error
wrapper the claim asserts. -/
theorem insert_end_marker_counterexample :
    (insertTextImpl none ("ab".toList)
        (InsertParams.mk ("x".toList) ("a".toList) false none
          (some ("zq".toList)) false)).1.message =
      Msg.noMatchFound PName.anchorBlockEndMarker ∧
    Msg.noMatchFound PName.anchorBlockEndMarker ≠ Msg.unexpectedError := by
  constructor
  · decide
  · decide

/-- Witness for `insert_end_marker_without_start`: on `"ab ab"` with end
marker `"ab"` and no start marker, the insert fails. -/
theorem insert_end_marker_without_start_witness :
    (insertTextImpl none ("ab ab".toList)
        (InsertParams.mk ("x".toList) ("b".toList) false none
          (some ("ab".toList)) false)).1.success = false :=
  ((insert_end_marker_without_start ("ab ab".toList)
    (InsertParams.mk ("x".toList) ("b".toList) false none
      (some ("ab".toList)) false) ("ab".toList) rfl rfl).1).1

theorem lbGo_lt (arr : List RawMatch) (x : Nat)
    (hs : arr.Pairwise (fun a b => a.flatStart ≤ b.flatStart)) :
    ∀ (fuel lo hi : Nat), hi ≤ arr.length → hi - lo ≤ fuel →
      (∀ k, k < lo → (arr.getD k default).flatStart < x) →
      ∀ k, k < lbGo arr x lo hi fuel →
        (arr.getD k default).flatStart < x := by
  have hmono : ∀ i j, i ≤ j → j < arr.length →
      (arr.getD i default).flatStart ≤ (arr.getD j default).flatStart := by
    intro i j hij hj
    rcases Nat.lt_or_ge i j with hlt | hge
    · have := (List.pairwise_iff_getElem.mp hs) i j (by omega) hj hlt
      rw [List.getD_eq_getElem arr default (by omega),
        List.getD_eq_getElem arr default hj]
      exact this
    · have hji : i = j := by omega
      subst hji
      exact Nat.le_refl _
  intro fuel
  induction fuel with
  | zero =>
    intro lo hi hhi hgap hinv k hk
    exact hinv k (by simpa [lbGo] using hk)
  | succ fuel ih =>
    intro lo hi hhi hgap hinv k hk
    simp only [lbGo] at hk
    by_cases hlh : lo < hi
    · rw [if_pos hlh] at hk
      by_cases hmid : (arr.getD ((lo + hi) / 2) default).flatStart < x
      · rw [if_pos hmid] at hk
        refine ih ((lo + hi) / 2 + 1) hi hhi (by omega) ?_ k hk
        intro k2 hk2
        rcases Nat.lt_or_ge k2 lo with hl | hgel
        · exact hinv k2 hl
        · exact Nat.lt_of_le_of_lt
            (hmono k2 ((lo + hi) / 2) (by omega) (by omega)) hmid
      · rw [if_neg hmid] at hk
        exact ih lo ((lo + hi) / 2) (by omega) (by omega) hinv k hk
    · rw [if_neg hlh] at hk
      exact hinv k hk

theorem lowerBound_take_lt (arr : List RawMatch) (x : Nat)
    (hs : arr.Pairwise (fun a b => a.flatStart ≤ b.flatStart)) :
    ∀ y ∈ arr.take (lowerBoundSuffix arr x), y.flatStart < x := by
  intro y hy
  obtain ⟨i, hi, hEq⟩ := List.getElem_of_mem hy
  have hlen : i < arr.length := by
    have := hi
    simp only [List.length_take] at this
    omega
  have hlb : i < lowerBoundSuffix arr x := by
    have := hi
    simp only [List.length_take] at this
    omega
  have hbound := lbGo_lt arr x hs arr.length 0 arr.length (Nat.le_refl _)
    (by omega) (by omega) i hlb
  rw [List.getD_eq_getElem arr default hlen] at hbound
  rw [List.getElem_take] at hEq
  rw [hEq] at hbound
  exact hbound

theorem combinedForPre_sound (pre : RawMatch) (m minLen : Nat) :
    ∀ (L : List RawMatch) (c : RawMatch), c ∈ combinedForPre pre m minLen L →
      ∃ suf, suf ∈ L ∧ pre.flatEndExclusive ≤ suf.flatStart ∧
        3 * (m : Int) ≤
          4 * ((suf.flatEndExclusive : Int) - (pre.flatStart : Int)) ∧
        4 * ((suf.flatEndExclusive : Int) - (pre.flatStart : Int)) ≤
          5 * (m : Int) ∧
        minLen ≤ pre.matchedLen + suf.matchedLen ∧
        c = RawMatch.mk MatchType.combinedMatch pre.flatStart
          suf.flatEndExclusive (pre.matchedLen + suf.matchedLen) := by
  intro L
  induction L with
  | nil => intro c hc; simp [combinedForPre] at hc
  | cons h0 rest ih =>
    intro c hc
    simp only [combinedForPre] at hc
    split_ifs at hc with h1 h2 h3 h4
    · obtain ⟨suf, hmem, hrest⟩ := ih c hc
      exact ⟨suf, List.mem_cons_of_mem _ hmem, hrest⟩
    · obtain ⟨suf, hmem, hrest⟩ := ih c hc
      exact ⟨suf, List.mem_cons_of_mem _ hmem, hrest⟩
    · exact absurd hc (List.not_mem_nil c)
    · rcases List.mem_cons.mp hc with rfl | hc2
      · exact ⟨h0, List.mem_cons_self _ _, by omega, by omega, by omega,
          h4, rfl⟩
      · obtain ⟨suf, hmem, hrest⟩ := ih c hc2
        exact ⟨suf, List.mem_cons_of_mem _ hmem, hrest⟩
    · obtain ⟨suf, hmem, hrest⟩ := ih c hc
      exact ⟨suf, List.mem_cons_of_mem _ hmem, hrest⟩

theorem combinedForPre_complete (pre suf : RawMatch) (m minLen : Nat)
    (hss : pre.flatEndExclusive ≤ suf.flatStart)
    (hlo : 3 * (m : Int) ≤
      4 * ((suf.flatEndExclusive : Int) - (pre.flatStart : Int)))
    (hhi : 4 * ((suf.flatEndExclusive : Int) - (pre.flatStart : Int)) ≤
      5 * (m : Int))
    (hcl : minLen ≤ pre.matchedLen + suf.matchedLen) :
    ∀ L : List RawMatch,
      L.Pairwise (fun a b => a.flatEndExclusive ≤ b.flatEndExclusive) →
      suf ∈ L →
      RawMatch.mk MatchType.combinedMatch pre.flatStart suf.flatEndExclusive
        (pre.matchedLen + suf.matchedLen) ∈ combinedForPre pre m minLen L := by
  intro L
  induction L with
  | nil => intro _ h; simp at h
  | cons h0 rest ih =>
    intro hpw hmem
    obtain ⟨hph, hpt⟩ := List.pairwise_cons.mp hpw
    simp only [combinedForPre]
    rcases List.mem_cons.mp hmem with rfl | hmem2
    · rw [if_neg (by omega), if_neg (by omega), if_neg (by omega),
        if_pos hcl]
      exact List.mem_cons_self _ _
    · have hend : h0.flatEndExclusive ≤ suf.flatEndExclusive := hph suf hmem2
      have hrec := ih hpt hmem2
      by_cases h1 : h0.flatStart < pre.flatEndExclusive
      · rw [if_pos h1]; exact hrec
      · rw [if_neg h1]
        by_cases h2 : 4 * ((h0.flatEndExclusive : Int) -
            (pre.flatStart : Int)) < 3 * (m : Int)
        · rw [if_pos h2]; exact hrec
        · rw [if_neg h2]
          have hendI : (h0.flatEndExclusive : Int) ≤
              (suf.flatEndExclusive : Int) := by exact_mod_cast hend
          rw [if_neg (by omega)]
          by_cases h4 : minLen ≤ pre.matchedLen + h0.matchedLen
          · rw [if_pos h4]; exact List.mem_cons_of_mem _ hrec
          · rw [if_neg h4]; exact hrec

/-- C6 (amended): over the half-threshold-kept prefix and suffix raw
matches, a combined candidate is emitted only for pairs satisfying all
the stated window conditions — soundness, holding unconditionally (first
conjunct); and every pair satisfying them is emitted provided the kept
suffixes, sorted by `flatStart`, also have non-decreasing
`flatEndExclusive` — the premise that makes the early `span > 1.25·m`
break lossless (second conjunct).  Without that premise the break can
drop qualifying pairs (`combined_break_counterexample`). -/
theorem combined_stage_characterization (preMs sufMs : List RawMatch)
    (m minLen : Nat) (c : RawMatch) :
    (c ∈ combinedStage
        (preMs.filter (fun x => max 1 (minLen / 2) ≤ x.matchedLen))
        (sufMs.filter (fun x => max 1 (minLen / 2) ≤ x.matchedLen))
        m minLen →
      ∃ pre suf, pre ∈ preMs ∧ suf ∈ sufMs ∧
        max 1 (minLen / 2) ≤ pre.matchedLen ∧
        max 1 (minLen / 2) ≤ suf.matchedLen ∧
        pre.flatEndExclusive ≤ suf.flatStart ∧
        3 * (m : Int) ≤
          4 * ((suf.flatEndExclusive : Int) - (pre.flatStart : Int)) ∧
        4 * ((suf.flatEndExclusive : Int) - (pre.flatStart : Int)) ≤
          5 * (m : Int) ∧
        minLen ≤ pre.matchedLen + suf.matchedLen ∧
        c = RawMatch.mk MatchType.combinedMatch pre.flatStart
          suf.flatEndExclusive (pre.matchedLen + suf.matchedLen)) ∧
    ((((sufMs.filter
          (fun x => max 1 (minLen / 2) ≤ x.matchedLen)).insertionSort
        (fun a b => a.flatStart ≤ b.flatStart)).Pairwise
      (fun a b => a.flatEndExclusive ≤ b.flatEndExclusive)) →
      (∃ pre suf, pre ∈ preMs ∧ suf ∈ sufMs ∧
        max 1 (minLen / 2) ≤ pre.matchedLen ∧
        max 1 (minLen / 2) ≤ suf.matchedLen ∧
        pre.flatEndExclusive ≤ suf.flatStart ∧
        3 * (m : Int) ≤
          4 * ((suf.flatEndExclusive : Int) - (pre.flatStart : Int)) ∧
        4 * ((suf.flatEndExclusive : Int) - (pre.flatStart : Int)) ≤
          5 * (m : Int) ∧
        minLen ≤ pre.matchedLen + suf.matchedLen ∧
        c = RawMatch.mk MatchType.combinedMatch pre.flatStart
          suf.flatEndExclusive (pre.matchedLen + suf.matchedLen)) →
      c ∈ combinedStage
        (preMs.filter (fun x => max 1 (minLen / 2) ≤ x.matchedLen))
        (sufMs.filter (fun x => max 1 (minLen / 2) ≤ x.matchedLen))
        m minLen) := by
  unfold combinedStage
  constructor
  · intro hc
    by_cases hgate :
        (preMs.filter (fun x => max 1 (minLen / 2) ≤ x.matchedLen)).length
          ≠ 0 ∧
        (sufMs.filter (fun x => max 1 (minLen / 2) ≤ x.matchedLen)).length
          ≠ 0
    · rw [if_pos hgate] at hc
      obtain ⟨pre, hpre, hcpre⟩ := List.mem_flatMap.mp hc
      obtain ⟨suf, hsufmem, hrest⟩ := combinedForPre_sound pre m minLen _ c
        hcpre
      have hsuf2 : suf ∈ (sufMs.filter
          (fun x => max 1 (minLen / 2) ≤ x.matchedLen)).insertionSort
            (fun a b => a.flatStart ≤ b.flatStart) :=
        List.mem_of_mem_drop hsufmem
      have hsuf3 := (List.mem_insertionSort _).mp hsuf2
      have hpre2 := List.mem_filter.mp hpre
      have hsuf4 := List.mem_filter.mp hsuf3
      exact ⟨pre, suf, hpre2.1, hsuf4.1, by simpa using hpre2.2,
        by simpa using hsuf4.2, hrest.1, hrest.2.1, hrest.2.2.1,
        hrest.2.2.2.1, hrest.2.2.2.2⟩
    · rw [if_neg hgate] at hc
      exact absurd hc (List.not_mem_nil c)
  · intro hEnds
    rintro ⟨pre, suf, hpreM, hsufM, hthr1, hthr2, hss, hlo, hhi, hcl, rfl⟩
    have hpre : pre ∈ preMs.filter
        (fun x => max 1 (minLen / 2) ≤ x.matchedLen) :=
      List.mem_filter.mpr ⟨hpreM, by simpa using hthr1⟩
    have hsuf : suf ∈ sufMs.filter
        (fun x => max 1 (minLen / 2) ≤ x.matchedLen) :=
      List.mem_filter.mpr ⟨hsufM, by simpa using hthr2⟩
    have hgate :
        (preMs.filter (fun x => max 1 (minLen / 2) ≤ x.matchedLen)).length
          ≠ 0 ∧
        (sufMs.filter (fun x => max 1 (minLen / 2) ≤ x.matchedLen)).length
          ≠ 0 := by
      constructor
      · have := List.length_pos.mpr (List.ne_nil_of_mem hpre)
        omega
      · have := List.length_pos.mpr (List.ne_nil_of_mem hsuf)
        omega
    rw [if_pos hgate]
    refine List.mem_flatMap.mpr ⟨pre, hpre, ?_⟩
    have hsorted : ((sufMs.filter
        (fun x => max 1 (minLen / 2) ≤ x.matchedLen)).insertionSort
          (fun a b => a.flatStart ≤ b.flatStart)).Pairwise
        (fun a b : RawMatch => a.flatStart ≤ b.flatStart) :=
      List.sorted_insertionSort _ _
    have hsufsorted : suf ∈ (sufMs.filter
        (fun x => max 1 (minLen / 2) ≤ x.matchedLen)).insertionSort
          (fun a b => a.flatStart ≤ b.flatStart) :=
      (List.mem_insertionSort _).mpr hsuf
    have hsufdrop : suf ∈ ((sufMs.filter
        (fun x => max 1 (minLen / 2) ≤ x.matchedLen)).insertionSort
          (fun a b => a.flatStart ≤ b.flatStart)).drop
        (lowerBoundSuffix ((sufMs.filter
          (fun x => max 1 (minLen / 2) ≤ x.matchedLen)).insertionSort
            (fun a b => a.flatStart ≤ b.flatStart)) pre.flatEndExclusive) := by
      have hsplit := List.take_append_drop
        (lowerBoundSuffix ((sufMs.filter
          (fun x => max 1 (minLen / 2) ≤ x.matchedLen)).insertionSort
            (fun a b => a.flatStart ≤ b.flatStart)) pre.flatEndExclusive)
        ((sufMs.filter
          (fun x => max 1 (minLen / 2) ≤ x.matchedLen)).insertionSort
            (fun a b => a.flatStart ≤ b.flatStart))
      rw [← hsplit] at hsufsorted
      rcases List.mem_append.mp hsufsorted with htake | hdrop
      · have := lowerBound_take_lt _ pre.flatEndExclusive hsorted suf htake
        omega
      · exact hdrop
    exact combinedForPre_complete pre suf m minLen hss hlo hhi hcl _
      (hEnds.sublist (List.drop_sublist _ _)) hsufdrop

/-- Counterexample to C6 as stated: for flat text `"zbcbaa"` and stripped
pattern `"zbaa"` (`m = 4`, `minMatchLen = 3`, `halfThreshold = 1`), the
kept prefix `[0,2)` (len 2) and kept suffix `[4,5)` (len 1) satisfy every
stated condition — gap, window `3·m ≤ 4·span ≤ 5·m`, combined length —
yet no combined candidate at all is emitted: the scan first meets the
longer suffix `[3,6)`, whose span `6 > 1.25·4` triggers the early break
before the qualifying pair is seen. -/
theorem combined_break_counterexample :
    RawMatch.mk MatchType.preMatch 0 2 2 ∈
      (prefixRawMatches ("zbaa".toList) ("zbcbaa".toList)).filter
        (fun x => max 1 (computeMinMatchLen 4 / 2) ≤ x.matchedLen) ∧
    RawMatch.mk MatchType.sufMatch 4 5 1 ∈
      (suffixRawMatches ("zbaa".toList) ("zbcbaa".toList)).filter
        (fun x => max 1 (computeMinMatchLen 4 / 2) ≤ x.matchedLen) ∧
    (RawMatch.mk MatchType.preMatch 0 2 2).flatEndExclusive ≤
      (RawMatch.mk MatchType.sufMatch 4 5 1).flatStart ∧
    3 * (4 : Int) ≤ 4 * (5 - 0) ∧ 4 * ((5 : Int) - 0) ≤ 5 * 4 ∧
    computeMinMatchLen 4 ≤ 2 + 1 ∧
    combinedStage
      ((prefixRawMatches ("zbaa".toList) ("zbcbaa".toList)).filter
        (fun x => max 1 (computeMinMatchLen 4 / 2) ≤ x.matchedLen))
      ((suffixRawMatches ("zbaa".toList) ("zbcbaa".toList)).filter
        (fun x => max 1 (computeMinMatchLen 4 / 2) ≤ x.matchedLen))
      4 (computeMinMatchLen 4) = [] := by
  refine ⟨by decide, by decide, by decide, by decide, by decide, by decide,
    by decide⟩

/-- Witness for `combined_stage_characterization`: on one kept prefix
`[0,2)` and one kept suffix `[4,5)` the characterisation produces the
combined candidate. -/
theorem combined_stage_characterization_witness :
    RawMatch.mk MatchType.combinedMatch 0 5 3 ∈
      combinedStage
        (([RawMatch.mk MatchType.preMatch 0 2 2]).filter
          (fun x => max 1 (3 / 2) ≤ x.matchedLen))
        (([RawMatch.mk MatchType.sufMatch 4 5 1]).filter
          (fun x => max 1 (3 / 2) ≤ x.matchedLen))
        4 3 :=
  ((combined_stage_characterization [RawMatch.mk MatchType.preMatch 0 2 2]
    [RawMatch.mk MatchType.sufMatch 4 5 1] 4 3
    (RawMatch.mk MatchType.combinedMatch 0 5 3)).2 (by decide))
    ⟨RawMatch.mk MatchType.preMatch 0 2 2,
     RawMatch.mk MatchType.sufMatch 4 5 1,
     by decide, by decide, by decide, by decide, by decide, by decide,
     by decide, by decide, rfl⟩
